import Mathlib

/-!
Shallow embedding of the CSV ingestion subsystem of the production-metrics
dashboard, translated from `src/server/src/handlers/upload_csv.ts` together
with the zod schemas of `src/server/src/schema.ts` and the table shapes of
`src/server/src/db/schema.ts`.

Modelling conventions:
* JS strings are Lean `String` (a structure over `List Char`); the JS
  operations `String.prototype.split` (single-character separator, all
  occurrences, empty pieces kept) and `String.prototype.trim` are embedded
  as `jsSplit` and `jsTrim`, defined by structural recursion on the
  underlying character list.
* `new Date(s)` and `parseFloat(s)` are platform functions of the JS
  runtime; the embedding abstracts them as explicit parameters
  `pd : String -> Option Int` (the timestamp of a *valid* date, `none` for
  an Invalid Date) and `pf : String -> Option JsNumber` (`none` for NaN,
  where `JsNumber` is an exact decimal — integer mantissa and power-of-ten
  scale — standing for the parsed double; the zod bound checks against 0
  and 100 are exact on decimals).  Every universal theorem below is proved
  for all such functions.  Concrete instantiations (`demoParseDate`,
  `demoParseFloat`) are supplied for evaluating witnesses and
  counterexamples.
* The drizzle/Postgres store is embedded as an in-memory `Store`:
  the two tables as lists in insertion order, with the `serial` id
  counters made explicit.  `numeric` column round-tripping
  (`toString` / `parseFloat`) is modelled as identity on the rational
  value; `defaultNow()` and `new Date()` timestamps take the value of the
  `now : Nat` parameter of the run.
* A database call can throw; the embedding threads a fault oracle
  `List Fault` and pops one entry per database call (each processed valid
  row performs exactly two calls: one select, one insert-or-update).
  `none` means the call succeeds; `some msg` means it throws with message
  `msg`, which the handler catches per row.
-/

namespace ProdDash

/-! ## JS string primitives -/

/-- Whitespace as recognised by `String.prototype.trim` (ASCII part). -/
def isJsSpace (c : Char) : Bool :=
  c = ' ' || c = '\t' || c = '\n' || c = '\r' || c = '\x0b' || c = '\x0c'

/-- `String.prototype.split` with a one-character separator, on the
character list: splits at every occurrence, keeps empty pieces, and
returns `[[]]` on the empty string. -/
def splitOnChar (sep : Char) : List Char → List (List Char)
  | [] => [[]]
  | c :: cs =>
    if c = sep then [] :: splitOnChar sep cs
    else
      match splitOnChar sep cs with
      | [] => [[c]]
      | p :: ps => (c :: p) :: ps

/-- Drop JS whitespace on the left. -/
def trimLeftChars (l : List Char) : List Char := l.dropWhile isJsSpace

/-- Drop JS whitespace on the right. -/
def trimRightChars (l : List Char) : List Char :=
  (l.reverse.dropWhile isJsSpace).reverse

/-- `String.prototype.trim` on the character list. -/
def trimChars (l : List Char) : List Char := trimRightChars (trimLeftChars l)

/-- `s.trim()`. -/
def jsTrim (s : String) : String := String.mk (trimChars s.data)

/-- `s.split(sep)` for a one-character separator. -/
def jsSplit (sep : Char) (s : String) : List String :=
  (splitOnChar sep s.data).map String.mk

/-! ## Data model (db/schema.ts) -/

/-- Exact decimal standing for a JS number produced by `parseFloat`:
value `mant / 10 ^ exp`. -/
structure JsNumber where
  mant : Int
  exp : Nat
deriving DecidableEq, Repr

/-- Whether the decimal is `< 0` (sign of the mantissa). -/
def JsNumber.ltZero (n : JsNumber) : Bool := n.mant < 0

/-- Whether the decimal is `> 100`, exactly. -/
def JsNumber.gtHundred (n : JsNumber) : Bool := 100 * (10 : Int) ^ n.exp < n.mant

/-- Row of the `kpi_data` table.  Timestamps are abstract instants
(naturals); the three `numeric` columns hold the ingested numbers. -/
structure KpiRecord where
  id : Nat
  week_date : Int
  efficiency : JsNumber
  production_rate : JsNumber
  defects_ppm : JsNumber
  created_at : Nat
deriving DecidableEq, Repr

/-- The `staff_status` enum. -/
inductive StaffStatus where
  | active
  | on_vacation
deriving DecidableEq, Repr

/-- Row of the `staff_members` table. -/
structure StaffRecord where
  id : Nat
  name : String
  position : String
  department : String
  status : StaffStatus
  created_at : Nat
  updated_at : Nat
deriving DecidableEq, Repr

/-- The relational store: both tables in insertion order plus the two
`serial` id counters. -/
structure Store where
  kpis : List KpiRecord
  staff : List StaffRecord
  nextKpiId : Nat
  nextStaffId : Nat
deriving DecidableEq, Repr

/-- A store with empty tables, ids starting at 1 as Postgres `serial` does. -/
def emptyStore : Store := ⟨[], [], 1, 1⟩

/-- One entry of the database fault oracle: `none` = the call succeeds,
`some msg` = the call throws with message `msg`. -/
abbrev Fault := Option String

/-- Pop the next fault oracle entry (an exhausted oracle never fails). -/
def popFault : List Fault → Option String × List Fault
  | [] => (none, [])
  | f :: fs => (f, fs)

/-- Result shape returned by `uploadCsv`. -/
structure UploadResult where
  success : Bool
  recordsProcessed : Nat
  errors : List String
deriving DecidableEq, Repr

/-! ## Per-row validation (upload_csv.ts rows, schema.ts zod schemas) -/

/-- The distinct row-level failure cases of the handler, before rendering
to the message strings pushed onto `errors`. -/
inductive RowError where
  | colCount (expected got : Nat)
  | invalidCsvFormat (msgs : List String)
  | invalidStatus (s : String)
  | business (msgs : List String)
  | dbError (msg : String)
deriving DecidableEq, Repr

/-- Render a `RowError` to the exact string the handler pushes, for the
row at 1-based file line `idx`. -/
def renderRowError (idx : Nat) : RowError → String
  | .colCount expected got =>
      "Row " ++ toString idx ++ ": Expected " ++ toString expected ++
        " columns, got " ++ toString got
  | .invalidCsvFormat msgs =>
      "Row " ++ toString idx ++ ": Invalid CSV format - " ++
        String.intercalate ", " msgs
  | .invalidStatus s =>
      "Row " ++ toString idx ++ ": Invalid status \x27" ++ s ++
        "\x27. Must be \x27active\x27 or \x27on_vacation\x27"
  | .business msgs =>
      "Row " ++ toString idx ++ ": " ++ String.intercalate ", " msgs
  | .dbError msg =>
      "Row " ++ toString idx ++ ": Database error - " ++ msg

/-- zod issues of `createKpiDataInputSchema` for the coerced `week_date`
(`none` models an Invalid Date). -/
def weekDateIssues : Option Int → List String
  | some _ => []
  | none => ["week_date Invalid date"]

/-- zod issues of `z.number().min(0).max(100)` applied to `parseFloat`
output (`none` models NaN, which fails the number type check). -/
def effIssues : Option JsNumber → List String
  | none => ["efficiency Expected number, received nan"]
  | some q =>
      (if q.ltZero then ["efficiency Number must be greater than or equal to 0"] else []) ++
      (if q.gtHundred then ["efficiency Number must be less than or equal to 100"] else [])

/-- zod issues of `z.number().nonnegative()` for field `field`. -/
def nonnegIssues (field : String) : Option JsNumber → List String
  | none => [field ++ " Expected number, received nan"]
  | some q =>
      if q.ltZero then [field ++ " Number must be greater than or equal to 0"] else []

/-- zod issue of `z.string().min(1)` for field `field`. -/
def minLenIssue (field : String) (v : String) : List String :=
  if v = "" then [field ++ " String must contain at least 1 character(s)"] else []

/-- zod `Required` messages of `csvKpiRowSchema` / `csvStaffRowSchema` for
the object fields that are absent (JS `undefined`). -/
def requiredMsgs (fields : List (Option String)) : List String :=
  fields.foldr (fun f acc => (if f.isNone then ["Required"] else []) ++ acc) []

/-- `staffStatusEnum.safeParse`. -/
def parseStatus : String → Option StaffStatus
  | "active" => some .active
  | "on_vacation" => some .on_vacation
  | _ => none

/-- zod issues of `createKpiDataInputSchema` over the transformed record,
in schema field order. -/
def kpiIssues (pd : String → Option Int) (pf : String → Option JsNumber)
    (ws es ps ds : String) : List String :=
  weekDateIssues (pd ws) ++ effIssues (pf es) ++
    nonnegIssues "production_rate" (pf ps) ++ nonnegIssues "defects_ppm" (pf ds)

/-- Validation pipeline of one KPI data row, applied to the
split-and-trimmed cells, in the handler\x27s order: column count, raw csv
row schema (the csvRow object fields are JS property accesses, undefined
for a missing index), transform (`new Date` / `parseFloat`), business
schema. -/
def kpiValidateRow (pd : String → Option Int) (pf : String → Option JsNumber)
    (values : List String) : Except RowError (Int × JsNumber × JsNumber × JsNumber) :=
  if values.length ≠ 4 then
    .error (.colCount 4 values.length)
  else
    match values.get? 0, values.get? 1, values.get? 2, values.get? 3 with
    | some ws, some es, some ps, some ds =>
      match pd ws, pf es, pf ps, pf ds with
      | some wdv, some evv, some pvv, some dvv =>
        if kpiIssues pd pf ws es ps ds = [] then .ok (wdv, evv, pvv, dvv)
        else .error (.business (kpiIssues pd pf ws es ps ds))
      | _, _, _, _ => .error (.business (kpiIssues pd pf ws es ps ds))
    | _, _, _, _ =>
      .error (.invalidCsvFormat
        (requiredMsgs [values.get? 0, values.get? 1, values.get? 2, values.get? 3]))

/-- zod issues of `createStaffMemberInputSchema` over the transformed
record (the status was already validated). -/
def staffIssues (ns ps ds : String) : List String :=
  minLenIssue "name" ns ++ minLenIssue "position" ps ++ minLenIssue "department" ds

/-- Validation pipeline of one staff data row: column count, raw csv row
schema, status enum, business schema. -/
def staffValidateRow (values : List String) :
    Except RowError (String × String × String × StaffStatus) :=
  if values.length ≠ 4 then
    .error (.colCount 4 values.length)
  else
    match values.get? 0, values.get? 1, values.get? 2, values.get? 3 with
    | some ns, some ps, some ds, some ss =>
      match parseStatus ss with
      | none => .error (.invalidStatus ss)
      | some sv =>
        if staffIssues ns ps ds = [] then .ok (ns, ps, ds, sv)
        else .error (.business (staffIssues ns ps ds))
    | _, _, _, _ =>
      .error (.invalidCsvFormat
        (requiredMsgs [values.get? 0, values.get? 1, values.get? 2, values.get? 3]))

/-! ## Store reconciliation (the upsert blocks of upload_csv.ts) -/

/-- The KPI upsert of a valid row: select by `week_date`; if any record
matches, update the three numeric columns of the matching records, else
insert a fresh record (serial id, `created_at` defaulted to now). -/
def upsertKpi (wd : Int) (ev pv dv : JsNumber) (now : Nat) (st : Store) : Store :=
  if st.kpis.any (fun r => r.week_date = wd) then
    { st with kpis := st.kpis.map (fun r =>
        if r.week_date = wd then
          { r with efficiency := ev, production_rate := pv, defects_ppm := dv }
        else r) }
  else
    { st with
      kpis := st.kpis ++ [⟨st.nextKpiId, wd, ev, pv, dv, now⟩],
      nextKpiId := st.nextKpiId + 1 }

/-- The staff upsert of a valid row: select by `name`, find the record of
the same `department`; if found, update `position`, `status`, `updated_at`
of that id, else insert a fresh record (timestamps defaulted to now). -/
def upsertStaff (n p dept : String) (sv : StaffStatus) (now : Nat) (st : Store) : Store :=
  match (st.staff.filter (fun r => r.name = n)).find? (fun r => r.department = dept) with
  | some dup =>
    { st with staff := st.staff.map (fun r =>
        if r.id = dup.id then
          { r with position := p, status := sv, updated_at := now }
        else r) }
  | none =>
    { st with
      staff := st.staff ++ [⟨st.nextStaffId, n, p, dept, sv, now, now⟩],
      nextStaffId := st.nextStaffId + 1 }

/-- The per-row database phase inside the handler's `try`: one select call
followed by one write call, each of which may throw per the fault oracle;
a throw is caught and becomes a `dbError` outcome with the state of the
row left unchanged. -/
def dbRound (apply : Store → Store) (st : Store) (fs : List Fault) :
    Option RowError × Store × List Fault :=
  match popFault fs with
  | (some m, fs1) => (some (.dbError m), st, fs1)
  | (none, fs1) =>
    match popFault fs1 with
    | (some m, fs2) => (some (.dbError m), st, fs2)
    | (none, fs2) => (none, apply st, fs2)

/-- Process one KPI data row: split on commas, trim each cell, validate,
then reconcile against the store.  Returns the row outcome (`none` =
counted in `recordsProcessed`). -/
def processKpiRow (pd : String → Option Int) (pf : String → Option JsNumber)
    (now : Nat) (row : String) (st : Store) (fs : List Fault) :
    Option RowError × Store × List Fault :=
  match kpiValidateRow pd pf ((jsSplit ',' row).map jsTrim) with
  | .error e => (some e, st, fs)
  | .ok (wd, ev, pv, dv) => dbRound (upsertKpi wd ev pv dv now) st fs

/-- Process one staff data row. -/
def processStaffRow (now : Nat) (row : String) (st : Store) (fs : List Fault) :
    Option RowError × Store × List Fault :=
  match staffValidateRow ((jsSplit ',' row).map jsTrim) with
  | .error e => (some e, st, fs)
  | .ok (n, p, dept, sv) => dbRound (upsertStaff n p dept sv now) st fs

/-- The sequential row loop: rows processed one at a time in file order,
1-based file line `i` attached to each outcome (the first data row is
file line 2). -/
def runRows (step : String → Store → List Fault → Option RowError × Store × List Fault) :
    Nat → List String → Store → List Fault →
      List (Nat × Option RowError) × Store × List Fault
  | _, [], st, fs => ([], st, fs)
  | i, row :: rest, st, fs =>
    ((i, (step row st fs).1) ::
        (runRows step (i + 1) rest (step row st fs).2.1 (step row st fs).2.2).1,
      (runRows step (i + 1) rest (step row st fs).2.1 (step row st fs).2.2).2)

/-- The error strings of a row-outcome trace, in row order. -/
def renderOutcomes (outs : List (Nat × Option RowError)) : List String :=
  outs.filterMap (fun io => io.2.map (renderRowError io.1))

/-- Fold the row outcomes into the returned result object: `errors` in row
order, `recordsProcessed` counting the successful rows, and
`success = (errors.length == 0)`. -/
def aggregate (outs : List (Nat × Option RowError)) : UploadResult :=
  { success := (renderOutcomes outs).isEmpty
    recordsProcessed := outs.countP (fun io => io.2.isNone)
    errors := renderOutcomes outs }

/-! ## Header validation and the top-level handler -/

/-- Expected KPI header sequence. -/
def kpiHeaders : List String := ["week_date", "efficiency", "production_rate", "defects_ppm"]

/-- Expected staff header sequence. -/
def staffHeaders : List String := ["name", "position", "department", "status"]

/-- The header-count mismatch message of `validateHeaders`. -/
def headerCountMsg (expected actual : List String) : String :=
  "Invalid header count. Expected " ++ toString expected.length ++ " columns: [" ++
    String.intercalate ", " expected ++ "], got " ++ toString actual.length ++
    ": [" ++ String.intercalate ", " actual ++ "]"

/-- The first-mismatched-column message of `validateHeaders` (`pos` is the
0-based index; the message shows it 1-based). -/
def headerPosMsg (pos : Nat) (expectedName actualName : String) : String :=
  "Invalid header at position " ++ toString (pos + 1) ++ ". Expected \x27" ++
    expectedName ++ "\x27, got \x27" ++ actualName ++ "\x27"

/-- The position scan of `validateHeaders` (called with lists of equal
length). -/
def firstHeaderMismatch : List String → List String → Nat → Option String
  | _, [], _ => none
  | [], _ :: _, _ => none
  | a :: as, e :: es, i =>
    if a ≠ e then some (headerPosMsg i e a) else firstHeaderMismatch as es (i + 1)

/-- `validateHeaders`: `none` = valid, `some msg` = the descriptive error. -/
def validateHeaders (actual expected : List String) : Option String :=
  if actual.length ≠ expected.length then some (headerCountMsg expected actual)
  else firstHeaderMismatch actual expected 0

/-- The `uploadCsv` handler.  Arguments beyond the input object
`(inputType, inputData)`: the run time `now`, the abstracted platform
parsers `pd` (`new Date`) and `pf` (`parseFloat`), the store, and the
database fault oracle.  Returns the result object together with the final
store and the remaining oracle. -/
def uploadCsv (inputType inputData : String) (now : Nat)
    (pd : String → Option Int) (pf : String → Option JsNumber)
    (st : Store) (fs : List Fault) : UploadResult × Store × List Fault :=
  if jsTrim inputData = "" then
    (⟨false, 0, ["CSV data is empty"]⟩, st, fs)
  else
    match jsSplit '\n' (jsTrim inputData) with
    | [] =>
      -- lines.length === 0 (unreachable: split never returns an empty list)
      (⟨false, 0, ["CSV data is empty"]⟩, st, fs)
    | headerLine :: dataRows =>
      if dataRows.isEmpty then
        (⟨false, 0, ["CSV contains only headers, no data rows"]⟩, st, fs)
      else if inputType = "kpi" then
        match validateHeaders ((jsSplit ',' headerLine).map jsTrim) kpiHeaders with
        | some err => (⟨false, 0, [err]⟩, st, fs)
        | none =>
          (aggregate (runRows (processKpiRow pd pf now) 2 dataRows st fs).1,
            (runRows (processKpiRow pd pf now) 2 dataRows st fs).2)
      else if inputType = "staff" then
        match validateHeaders ((jsSplit ',' headerLine).map jsTrim) staffHeaders with
        | some err => (⟨false, 0, [err]⟩, st, fs)
        | none =>
          (aggregate (runRows (processStaffRow now) 2 dataRows st fs).1,
            (runRows (processStaffRow now) 2 dataRows st fs).2)
      else
        (⟨false, 0, ["Invalid type \x27" ++ inputType ++
          "\x27. Must be \x27kpi\x27 or \x27staff\x27"]⟩, st, fs)

/-! ## Concrete instantiations of the abstracted platform parsers -/

/-- Digit-string value. -/
def digitsToNat (l : List Char) : Nat :=
  l.foldl (fun a c => a * 10 + (c.toNat - '0'.toNat)) 0

/-- Concrete instantiation of the abstracted `parseFloat` for witnesses:
an optional sign followed by a decimal literal prefix; `none` models NaN. -/
def demoParseFloat (s : String) : Option JsNumber :=
  let l := s.data
  let signAndRest : Int × List Char :=
    match l with
    | '-' :: r => (-1, r)
    | '+' :: r => (1, r)
    | _ => (1, l)
  let ip := signAndRest.2.takeWhile Char.isDigit
  let rest := signAndRest.2.dropWhile Char.isDigit
  let fp :=
    match rest with
    | '.' :: r => r.takeWhile Char.isDigit
    | _ => []
  if ip = [] ∧ fp = [] then none
  else
    some ⟨signAndRest.1 * (digitsToNat ip * 10 ^ fp.length + digitsToNat fp), fp.length⟩

/-- Concrete instantiation of the abstracted `new Date` for witnesses:
accepts `YYYY-MM-DD` with plausible month and day, encoded injectively as
an instant. -/
def demoParseDate (s : String) : Option Int :=
  match jsSplit '-' s with
  | [y, m, d] =>
    if y.data ≠ [] ∧ y.data.all Char.isDigit ∧ m.data ≠ [] ∧ m.data.all Char.isDigit ∧
        d.data ≠ [] ∧ d.data.all Char.isDigit then
      let mv := digitsToNat m.data
      let dv := digitsToNat d.data
      if 1 ≤ mv ∧ mv ≤ 12 ∧ 1 ≤ dv ∧ dv ≤ 31 then
        some (digitsToNat y.data * 10000 + mv * 100 + dv)
      else none
    else none
  | _ => none

/-! ## Derived views of the input used in theorem statements -/

/-- The line list the handler works on: trim, then split on newline. -/
def csvLines (d : String) : List String := jsSplit '\n' (jsTrim d)

/-- The split-and-trimmed header cells of the first line. -/
def headerCellsOf (d : String) : List String :=
  (jsSplit ',' ((csvLines d).headD "")).map jsTrim

/-- The data rows: every line after the first. -/
def dataRowsOf (d : String) : List String := (csvLines d).tail

/-- Forget the modification timestamp of a staff record (used to compare
staff tables up to `updated_at`). -/
def stripUpdatedAt (r : StaffRecord) : StaffRecord := { r with updated_at := 0 }

/-- At most one stored KPI sample per `week_date`. -/
def kpiKeysUnique (st : Store) : Prop :=
  st.kpis.Pairwise (fun a b => a.week_date ≠ b.week_date)

/-- At most one staff record per (`name`, `department`) pair. -/
def staffKeysUnique (st : Store) : Prop :=
  st.staff.Pairwise (fun a b => ¬(a.name = b.name ∧ a.department = b.department))

/-! ## Basic structural lemmas -/

theorem splitOnChar_ne_nil (sep : Char) (l : List Char) : splitOnChar sep l ≠ [] := by
  induction l with
  | nil => simp [splitOnChar]
  | cons c cs ih =>
    unfold splitOnChar
    split
    · simp
    · cases h : splitOnChar sep cs <;> simp

theorem jsSplit_ne_nil (sep : Char) (s : String) : jsSplit sep s ≠ [] := by
  unfold jsSplit
  simp [splitOnChar_ne_nil]

theorem csvLines_eq_cons (d : String) :
    csvLines d = (csvLines d).headD "" :: dataRowsOf d := by
  have h := jsSplit_ne_nil '\n' (jsTrim d)
  cases hc : csvLines d with
  | nil => exact absurd hc h
  | cons a l => simp [dataRowsOf, hc]

/-- Case analysis on the early returns of `uploadCsv`: unfolding to the KPI
row phase. -/
theorem uploadCsv_kpi_rows (d : String) (now : Nat) (pd : String → Option Int)
    (pf : String → Option JsNumber) (st : Store) (fs : List Fault)
    (ht : jsTrim d ≠ "") (hr : dataRowsOf d ≠ [])
    (hv : validateHeaders (headerCellsOf d) kpiHeaders = none) :
    uploadCsv "kpi" d now pd pf st fs =
      (aggregate (runRows (processKpiRow pd pf now) 2 (dataRowsOf d) st fs).1,
        (runRows (processKpiRow pd pf now) 2 (dataRowsOf d) st fs).2) := by
  unfold uploadCsv
  rw [if_neg ht]
  split
  next hnil => exact absurd hnil (jsSplit_ne_nil _ _)
  next headerLine dataRows hcons =>
    have hrows : dataRowsOf d = dataRows := by simp [dataRowsOf, csvLines, hcons]
    have hhead : headerCellsOf d = (jsSplit ',' headerLine).map jsTrim := by
      simp [headerCellsOf, csvLines, hcons]
    rw [← hrows, ← hhead, hv, if_neg (by simpa [List.isEmpty_iff] using hr), if_pos rfl]

/-- Case analysis on the early returns of `uploadCsv`: unfolding to the
staff row phase. -/
theorem uploadCsv_staff_rows (d : String) (now : Nat) (pd : String → Option Int)
    (pf : String → Option JsNumber) (st : Store) (fs : List Fault)
    (ht : jsTrim d ≠ "") (hr : dataRowsOf d ≠ [])
    (hv : validateHeaders (headerCellsOf d) staffHeaders = none) :
    uploadCsv "staff" d now pd pf st fs =
      (aggregate (runRows (processStaffRow now) 2 (dataRowsOf d) st fs).1,
        (runRows (processStaffRow now) 2 (dataRowsOf d) st fs).2) := by
  unfold uploadCsv
  rw [if_neg ht]
  split
  next hnil => exact absurd hnil (jsSplit_ne_nil _ _)
  next headerLine dataRows hcons =>
    have hrows : dataRowsOf d = dataRows := by simp [dataRowsOf, csvLines, hcons]
    have hhead : headerCellsOf d = (jsSplit ',' headerLine).map jsTrim := by
      simp [headerCellsOf, csvLines, hcons]
    rw [← hrows, ← hhead, hv, if_neg (by simpa [List.isEmpty_iff] using hr),
      if_neg (by decide), if_pos rfl]

/-! ## C3: success is exactly "no errors"; partial success exists -/

/-- A KPI upload whose first data row is valid and whose second is
malformed: partial success. -/
def partialKpiCsv : String :=
  "week_date,efficiency,production_rate,defects_ppm\n2024-01-01,85.5,150.75,25.5\nbad"

/-- Claim C3: for every input the `success` field of the `uploadCsv` result
equals emptiness of its `errors` list, and the two fields are otherwise
independent: there is a run with `success = false` and
`recordsProcessed > 0` (partial success). -/
theorem uploadCsv_success_iff_no_errors :
    (∀ t d now pd pf st fs, (uploadCsv t d now pd pf st fs).1.success =
      (uploadCsv t d now pd pf st fs).1.errors.isEmpty) ∧
    ((uploadCsv "kpi" partialKpiCsv 0 demoParseDate demoParseFloat emptyStore []).1.success
        = false ∧
      0 < (uploadCsv "kpi" partialKpiCsv 0 demoParseDate demoParseFloat
        emptyStore []).1.recordsProcessed) := by
  constructor
  · intro t d now pd pf st fs
    unfold uploadCsv
    split
    · rfl
    · split
      · rfl
      · split
        · rfl
        · split
          · split <;> rfl
          · split
            · split <;> rfl
            · rfl
  · exact ⟨by decide, by decide⟩

/-! ## C7 (corrected): unknown kind is rejected, but only after the
empty-input and headers-only checks -/

/-- Claim C7 (amended): when the kind is neither "kpi" nor "staff" and the
input survives the earlier empty-data and headers-only checks, `uploadCsv`
returns exactly the invalid-type error and touches neither a row nor the
store. -/
theorem uploadCsv_invalid_type (t d : String) (now : Nat) (pd : String → Option Int)
    (pf : String → Option JsNumber) (st : Store) (fs : List Fault)
    (hk : t ≠ "kpi") (hs : t ≠ "staff") (ht : jsTrim d ≠ "") (hr : dataRowsOf d ≠ []) :
    uploadCsv t d now pd pf st fs =
      (⟨false, 0, ["Invalid type \x27" ++ t ++ "\x27. Must be \x27kpi\x27 or \x27staff\x27"]⟩,
        st, fs) := by
  unfold uploadCsv
  rw [if_neg ht]
  split
  next hnil => exact absurd hnil (jsSplit_ne_nil _ _)
  next headerLine dataRows hcons =>
    have hdr : dataRows ≠ [] := by
      have hrows : dataRowsOf d = dataRows := by simp [dataRowsOf, csvLines, hcons]
      exact hrows ▸ hr
    rw [if_neg (by simpa [List.isEmpty_iff] using hdr), if_neg hk, if_neg hs]

/-- Witness for the amended C7. -/
theorem uploadCsv_invalid_type_witness :
    uploadCsv "bogus" "h\nr" 0 demoParseDate demoParseFloat emptyStore [] =
      (⟨false, 0, ["Invalid type \x27bogus\x27. Must be \x27kpi\x27 or \x27staff\x27"]⟩,
        emptyStore, []) :=
  uploadCsv_invalid_type "bogus" "h\nr" 0 demoParseDate demoParseFloat emptyStore []
    (by decide) (by decide) (by decide) (by decide)

/-- Counterexample to C7 as stated: with an unknown kind and an empty data
string, the handler reports the empty-data error, not the invalid-type
error — the kind check does not fire "regardless of the content of the
data string". -/
theorem uploadCsv_invalid_type_counterexample :
    (uploadCsv "bogus" "" 0 demoParseDate demoParseFloat emptyStore []).1.errors =
        ["CSV data is empty"] ∧
      (uploadCsv "bogus" "" 0 demoParseDate demoParseFloat emptyStore []).1.errors ≠
        ["Invalid type \x27bogus\x27. Must be \x27kpi\x27 or \x27staff\x27"] := by
  decide

/-! ## C5 (corrected): header mismatch short-circuits with one message -/

/-- The expected header sequence of a known kind. -/
def expectedHeadersFor (t : String) : List String :=
  if t = "kpi" then kpiHeaders else staffHeaders

theorem jsTrim_ne_of_dataRows (d : String) (hr : dataRowsOf d ≠ []) : jsTrim d ≠ "" := by
  intro h
  apply hr
  unfold dataRowsOf csvLines
  rw [h]
  rfl

theorem firstHeaderMismatch_spec (a : List String) :
    ∀ (e : List String) (i0 : Nat), a.length = e.length → a ≠ e →
      ∃ k, k < e.length ∧ (∀ j, j < k → a.get? j = e.get? j) ∧
        a.get? k ≠ e.get? k ∧
        firstHeaderMismatch a e i0 =
          some (headerPosMsg (i0 + k) ((e.get? k).getD "") ((a.get? k).getD "")) := by
  induction a with
  | nil =>
    intro e i0 hlen hne
    cases e with
    | nil => exact absurd rfl hne
    | cons y ys => simp at hlen
  | cons x xs ih =>
    intro e i0 hlen hne
    cases e with
    | nil => simp at hlen
    | cons y ys =>
      by_cases hxy : x = y
      · subst hxy
        have hne2 : xs ≠ ys := by
          intro h
          exact hne (by rw [h])
        have hlen2 : xs.length = ys.length := by simpa using hlen
        obtain ⟨k, hk, hpre, hmis, heq⟩ := ih ys (i0 + 1) hlen2 hne2
        refine ⟨k + 1, by simpa using hk, ?_, by simpa using hmis, ?_⟩
        · intro j hj
          cases j with
          | zero => rfl
          | succ j2 => simpa using hpre j2 (by omega)
        · have hstep : firstHeaderMismatch (x :: xs) (x :: ys) i0 =
              firstHeaderMismatch xs ys (i0 + 1) := by
            simp [firstHeaderMismatch]
          rw [hstep, heq]
          have harith : i0 + 1 + k = i0 + (k + 1) := by omega
          simp [harith]
      · refine ⟨0, by simp, by intro j hj; omega, by simpa using hxy, ?_⟩
        simp [firstHeaderMismatch, hxy]

theorem validateHeaders_spec (a e : List String) (hne : a ≠ e) :
    ∃ m, validateHeaders a e = some m ∧
      ((a.length ≠ e.length ∧ m = headerCountMsg e a) ∨
        (∃ k, a.length = e.length ∧ k < e.length ∧
          (∀ j, j < k → a.get? j = e.get? j) ∧ a.get? k ≠ e.get? k ∧
          m = headerPosMsg k ((e.get? k).getD "") ((a.get? k).getD ""))) := by
  by_cases hlen : a.length = e.length
  · obtain ⟨k, hk, hpre, hmis, heq⟩ := firstHeaderMismatch_spec a e 0 hlen hne
    refine ⟨headerPosMsg (0 + k) ((e.get? k).getD "") ((a.get? k).getD ""), ?_,
      Or.inr ⟨k, hlen, hk, hpre, hmis, by simp⟩⟩
    simpa [validateHeaders, hlen] using heq
  · exact ⟨_, by simp [validateHeaders, hlen], Or.inl ⟨hlen, rfl⟩⟩

/-- Early return of `uploadCsv` on a header-validation error. -/
theorem uploadCsv_header_err (t d : String) (now : Nat) (pd : String → Option Int)
    (pf : String → Option JsNumber) (st : Store) (fs : List Fault) (m : String)
    (hk : t = "kpi" ∨ t = "staff") (ht : jsTrim d ≠ "") (hr : dataRowsOf d ≠ [])
    (hv : validateHeaders (headerCellsOf d) (expectedHeadersFor t) = some m) :
    uploadCsv t d now pd pf st fs = (⟨false, 0, [m]⟩, st, fs) := by
  rcases hk with h | h
  · subst h
    rw [show expectedHeadersFor "kpi" = kpiHeaders from rfl] at hv
    unfold uploadCsv
    rw [if_neg ht]
    split
    next hnil => exact absurd hnil (jsSplit_ne_nil _ _)
    next headerLine dataRows hcons =>
      have hdr : dataRows ≠ [] := by
        have hrows : dataRowsOf d = dataRows := by simp [dataRowsOf, csvLines, hcons]
        exact hrows ▸ hr
      have hhead : headerCellsOf d = (jsSplit ',' headerLine).map jsTrim := by
        simp [headerCellsOf, csvLines, hcons]
      rw [if_neg (by simpa [List.isEmpty_iff] using hdr), if_pos rfl, ← hhead, hv]
  · subst h
    rw [show expectedHeadersFor "staff" = staffHeaders from rfl] at hv
    unfold uploadCsv
    rw [if_neg ht]
    split
    next hnil => exact absurd hnil (jsSplit_ne_nil _ _)
    next headerLine dataRows hcons =>
      have hdr : dataRows ≠ [] := by
        have hrows : dataRowsOf d = dataRows := by simp [dataRowsOf, csvLines, hcons]
        exact hrows ▸ hr
      have hhead : headerCellsOf d = (jsSplit ',' headerLine).map jsTrim := by
        simp [headerCellsOf, csvLines, hcons]
      rw [if_neg (by simpa [List.isEmpty_iff] using hdr), if_neg (by decide), if_pos rfl,
        ← hhead, hv]

/-- Claim C5 (amended): for a known kind and an input that still has at
least one data row, a header row differing from the expected sequence
makes `uploadCsv` return success false, zero records, exactly one error
message and an untouched store; the message states the expected versus
actual column count, or the 1-based position with expected and actual
name of the first mismatched column. -/
theorem uploadCsv_header_mismatch (t d : String) (now : Nat) (pd : String → Option Int)
    (pf : String → Option JsNumber) (st : Store) (fs : List Fault)
    (hk : t = "kpi" ∨ t = "staff") (hr : dataRowsOf d ≠ [])
    (hne : headerCellsOf d ≠ expectedHeadersFor t) :
    ∃ m, uploadCsv t d now pd pf st fs = (⟨false, 0, [m]⟩, st, fs) ∧
      (((headerCellsOf d).length ≠ (expectedHeadersFor t).length ∧
          m = headerCountMsg (expectedHeadersFor t) (headerCellsOf d)) ∨
        (∃ k, (headerCellsOf d).length = (expectedHeadersFor t).length ∧
          k < (expectedHeadersFor t).length ∧
          (∀ j, j < k → (headerCellsOf d).get? j = (expectedHeadersFor t).get? j) ∧
          (headerCellsOf d).get? k ≠ (expectedHeadersFor t).get? k ∧
          m = headerPosMsg k (((expectedHeadersFor t).get? k).getD "")
            (((headerCellsOf d).get? k).getD ""))) := by
  obtain ⟨m, hvm, hshape⟩ := validateHeaders_spec (headerCellsOf d) (expectedHeadersFor t) hne
  exact ⟨m, uploadCsv_header_err t d now pd pf st fs m hk
    (jsTrim_ne_of_dataRows d hr) hr hvm, hshape⟩

/-- Witness for the amended C5. -/
theorem uploadCsv_header_mismatch_witness :
    ∃ m, uploadCsv "kpi" "foo\nbar" 0 demoParseDate demoParseFloat emptyStore [] =
        (⟨false, 0, [m]⟩, emptyStore, []) ∧
      (((headerCellsOf "foo\nbar").length ≠ (expectedHeadersFor "kpi").length ∧
          m = headerCountMsg (expectedHeadersFor "kpi") (headerCellsOf "foo\nbar")) ∨
        (∃ k, (headerCellsOf "foo\nbar").length = (expectedHeadersFor "kpi").length ∧
          k < (expectedHeadersFor "kpi").length ∧
          (∀ j, j < k →
            (headerCellsOf "foo\nbar").get? j = (expectedHeadersFor "kpi").get? j) ∧
          (headerCellsOf "foo\nbar").get? k ≠ (expectedHeadersFor "kpi").get? k ∧
          m = headerPosMsg k (((expectedHeadersFor "kpi").get? k).getD "")
            (((headerCellsOf "foo\nbar").get? k).getD ""))) :=
  uploadCsv_header_mismatch "kpi" "foo\nbar" 0 demoParseDate demoParseFloat emptyStore []
    (Or.inl rfl) (by decide) (by decide)

/-- Counterexample to C5 as stated: a non-empty input whose (mismatching)
header row is the whole content triggers the headers-only early return,
so the single error is not a header-mismatch message. -/
theorem uploadCsv_header_mismatch_counterexample :
    headerCellsOf "foo" ≠ kpiHeaders ∧ jsTrim "foo" ≠ "" ∧
      (uploadCsv "kpi" "foo" 0 demoParseDate demoParseFloat emptyStore []).1.errors =
        ["CSV contains only headers, no data rows"] ∧
      validateHeaders (headerCellsOf "foo") kpiHeaders =
        some (headerCountMsg kpiHeaders (headerCellsOf "foo")) ∧
      (uploadCsv "kpi" "foo" 0 demoParseDate demoParseFloat emptyStore []).1.errors ≠
        [headerCountMsg kpiHeaders (headerCellsOf "foo")] := by
  decide

/-! ## C9: the "Invalid CSV format" branch is unreachable -/

theorem kpiValidateRow_not_format (pd : String → Option Int)
    (pf : String → Option JsNumber) (values : List String) (msgs : List String) :
    kpiValidateRow pd pf values ≠ .error (.invalidCsvFormat msgs) := by
  unfold kpiValidateRow
  split
  · simp
  next hlen =>
    rcases values with _ | ⟨a, _ | ⟨b, _ | ⟨c, _ | ⟨d, _ | ⟨e, tl⟩⟩⟩⟩⟩
    · simp at hlen
    · simp at hlen
    · simp at hlen
    · simp at hlen
    · simp only [List.get?_cons_zero, List.get?_cons_succ]
      split
      · split <;> simp
      · simp
    · simp at hlen

theorem staffValidateRow_not_format (values : List String) (msgs : List String) :
    staffValidateRow values ≠ .error (.invalidCsvFormat msgs) := by
  unfold staffValidateRow
  split
  · simp
  next hlen =>
    rcases values with _ | ⟨a, _ | ⟨b, _ | ⟨c, _ | ⟨d, _ | ⟨e, tl⟩⟩⟩⟩⟩
    · simp at hlen
    · simp at hlen
    · simp at hlen
    · simp at hlen
    · simp only [List.get?_cons_zero, List.get?_cons_succ]
      split
      · simp
      · split <;> simp
    · simp at hlen

theorem dbRound_fst (apply : Store → Store) (st : Store) (fs : List Fault) :
    (dbRound apply st fs).1 = none ∨ ∃ m, (dbRound apply st fs).1 = some (.dbError m) := by
  unfold dbRound
  split
  next m fs1 heq => exact Or.inr ⟨m, rfl⟩
  next fs1 heq =>
    split
    next m fs2 heq2 => exact Or.inr ⟨m, rfl⟩
    next => exact Or.inl rfl

theorem processKpiRow_not_format (pd : String → Option Int) (pf : String → Option JsNumber)
    (now : Nat) (row : String) (st : Store) (fs : List Fault) (msgs : List String) :
    (processKpiRow pd pf now row st fs).1 ≠ some (.invalidCsvFormat msgs) := by
  unfold processKpiRow
  split
  next e heq =>
    intro hc
    simp only [Option.some.injEq] at hc
    exact kpiValidateRow_not_format pd pf _ msgs (hc ▸ heq)
  next wd ev pv dv heq =>
    rcases dbRound_fst (upsertKpi wd ev pv dv now) st fs with h | ⟨m, h⟩ <;> simp [h]

theorem processStaffRow_not_format (now : Nat) (row : String) (st : Store)
    (fs : List Fault) (msgs : List String) :
    (processStaffRow now row st fs).1 ≠ some (.invalidCsvFormat msgs) := by
  unfold processStaffRow
  split
  next e heq =>
    intro hc
    simp only [Option.some.injEq] at hc
    exact staffValidateRow_not_format _ msgs (hc ▸ heq)
  next n p dept sv heq =>
    rcases dbRound_fst (upsertStaff n p dept sv now) st fs with h | ⟨m, h⟩ <;> simp [h]

theorem runRows_mem_step
    (step : String → Store → List Fault → Option RowError × Store × List Fault) :
    ∀ (rows : List String) (i : Nat) (st : Store) (fs : List Fault)
      (io : Nat × Option RowError), io ∈ (runRows step i rows st fs).1 →
      ∃ row st2 fs2, io.2 = (step row st2 fs2).1 := by
  intro rows
  induction rows with
  | nil =>
    intro i st fs io h
    simp [runRows] at h
  | cons row rest ih =>
    intro i st fs io h
    rw [runRows] at h
    rcases List.mem_cons.mp h with h | h
    · exact ⟨row, st, fs, by rw [h]⟩
    · exact ih _ _ _ _ h

/-- Claim C9: the structural-validation ("Invalid CSV format") error branch
is unreachable — after the column-count check every assembled csv row
object satisfies the raw row schema, so no outcome of either row loop is
ever an `invalidCsvFormat` error. -/
theorem uploadCsv_no_invalid_format_error (pd : String → Option Int)
    (pf : String → Option JsNumber) (now : Nat) (st : Store) (fs : List Fault)
    (rows : List String) (io : Nat × Option RowError) (msgs : List String) :
    (io ∈ (runRows (processKpiRow pd pf now) 2 rows st fs).1 →
      io.2 ≠ some (.invalidCsvFormat msgs)) ∧
    (io ∈ (runRows (processStaffRow now) 2 rows st fs).1 →
      io.2 ≠ some (.invalidCsvFormat msgs)) := by
  constructor
  · intro hmem
    obtain ⟨row, st2, fs2, heq⟩ := runRows_mem_step _ rows 2 st fs io hmem
    rw [heq]
    exact processKpiRow_not_format pd pf now row st2 fs2 msgs
  · intro hmem
    obtain ⟨row, st2, fs2, heq⟩ := runRows_mem_step _ rows 2 st fs io hmem
    rw [heq]
    exact processStaffRow_not_format now row st2 fs2 msgs

/-- Witness for C9. -/
theorem uploadCsv_no_invalid_format_error_witness :
    ((2 : Nat), (processKpiRow demoParseDate demoParseFloat 0 "x" emptyStore []).1).2 ≠
      some (RowError.invalidCsvFormat ["Required"]) :=
  (uploadCsv_no_invalid_format_error demoParseDate demoParseFloat 0 emptyStore [] ["x"]
    (2, (processKpiRow demoParseDate demoParseFloat 0 "x" emptyStore []).1)
    ["Required"]).1 (by decide)

/-! ## C8: each data row contributes exactly one outcome -/

theorem runRows_length
    (step : String → Store → List Fault → Option RowError × Store × List Fault) :
    ∀ (rows : List String) (i : Nat) (st : Store) (fs : List Fault),
      (runRows step i rows st fs).1.length = rows.length := by
  intro rows
  induction rows with
  | nil => intro i st fs; rfl
  | cons row rest ih =>
    intro i st fs
    rw [runRows]
    simp [ih]

theorem countNone_add_rendered_length (outs : List (Nat × Option RowError)) :
    outs.countP (fun io => io.2.isNone) + (renderOutcomes outs).length = outs.length := by
  induction outs with
  | nil => rfl
  | cons io rest ih =>
    unfold renderOutcomes at ih ⊢
    rw [List.filterMap_cons, List.countP_cons]
    cases h : io.2 with
    | none => simp [h]; omega
    | some e => simp [h]; omega

theorem aggregate_accounting (outs : List (Nat × Option RowError)) :
    (aggregate outs).recordsProcessed + (aggregate outs).errors.length = outs.length :=
  countNone_add_rendered_length outs

/-- Claim C8: once the row phase is reached, every data row either counts
once in `recordsProcessed` or contributes exactly one error string, so the
two totals always add up to the number of data rows. -/
theorem uploadCsv_row_accounting (d : String) (now : Nat) (pd : String → Option Int)
    (pf : String → Option JsNumber) (st : Store) (fs : List Fault)
    (hr : dataRowsOf d ≠ []) :
    (validateHeaders (headerCellsOf d) kpiHeaders = none →
      (uploadCsv "kpi" d now pd pf st fs).1.recordsProcessed +
        (uploadCsv "kpi" d now pd pf st fs).1.errors.length = (dataRowsOf d).length) ∧
    (validateHeaders (headerCellsOf d) staffHeaders = none →
      (uploadCsv "staff" d now pd pf st fs).1.recordsProcessed +
        (uploadCsv "staff" d now pd pf st fs).1.errors.length = (dataRowsOf d).length) := by
  have ht := jsTrim_ne_of_dataRows d hr
  constructor
  · intro hv
    rw [uploadCsv_kpi_rows d now pd pf st fs ht hr hv]
    rw [show ((aggregate (runRows (processKpiRow pd pf now) 2 (dataRowsOf d) st fs).1,
        (runRows (processKpiRow pd pf now) 2 (dataRowsOf d) st fs).2)).1 =
      aggregate (runRows (processKpiRow pd pf now) 2 (dataRowsOf d) st fs).1 from rfl]
    rw [aggregate_accounting, runRows_length]
  · intro hv
    rw [uploadCsv_staff_rows d now pd pf st fs ht hr hv]
    rw [show ((aggregate (runRows (processStaffRow now) 2 (dataRowsOf d) st fs).1,
        (runRows (processStaffRow now) 2 (dataRowsOf d) st fs).2)).1 =
      aggregate (runRows (processStaffRow now) 2 (dataRowsOf d) st fs).1 from rfl]
    rw [aggregate_accounting, runRows_length]

/-- Witness for C8. -/
theorem uploadCsv_row_accounting_witness :
    (uploadCsv "kpi" partialKpiCsv 0 demoParseDate demoParseFloat emptyStore
        []).1.recordsProcessed +
      (uploadCsv "kpi" partialKpiCsv 0 demoParseDate demoParseFloat emptyStore
        []).1.errors.length = (dataRowsOf partialKpiCsv).length :=
  (uploadCsv_row_accounting partialKpiCsv 0 demoParseDate demoParseFloat emptyStore []
    (by decide)).1 (by decide)

/-! ## C4: a failing row never aborts the loop or escapes as an exception -/

theorem runRows_indices
    (step : String → Store → List Fault → Option RowError × Store × List Fault) :
    ∀ (rows : List String) (i : Nat) (st : Store) (fs : List Fault),
      (runRows step i rows st fs).1.map Prod.fst = List.range' i rows.length := by
  intro rows
  induction rows with
  | nil => intro i st fs; rfl
  | cons row rest ih =>
    intro i st fs
    rw [runRows]
    simp only [List.length_cons, List.range'_succ, List.map_cons]
    rw [ih]

/-- Claim C4: once header validation passes, the handler runs the whole
sequential row loop and returns its aggregate — every data row yields
exactly one outcome, the outcomes carry the file line numbers 2..n+1 in
order, and the `errors` field is the rendering of the outcome trace in row
order; no row failure (including a database fault) escapes as an
exception. -/
theorem uploadCsv_processes_all_rows (d : String) (now : Nat) (pd : String → Option Int)
    (pf : String → Option JsNumber) (st : Store) (fs : List Fault)
    (hr : dataRowsOf d ≠ []) :
    (validateHeaders (headerCellsOf d) kpiHeaders = none →
      uploadCsv "kpi" d now pd pf st fs =
        (aggregate (runRows (processKpiRow pd pf now) 2 (dataRowsOf d) st fs).1,
          (runRows (processKpiRow pd pf now) 2 (dataRowsOf d) st fs).2) ∧
      (runRows (processKpiRow pd pf now) 2 (dataRowsOf d) st fs).1.map Prod.fst =
        List.range' 2 (dataRowsOf d).length ∧
      (uploadCsv "kpi" d now pd pf st fs).1.errors =
        renderOutcomes (runRows (processKpiRow pd pf now) 2 (dataRowsOf d) st fs).1) ∧
    (validateHeaders (headerCellsOf d) staffHeaders = none →
      uploadCsv "staff" d now pd pf st fs =
        (aggregate (runRows (processStaffRow now) 2 (dataRowsOf d) st fs).1,
          (runRows (processStaffRow now) 2 (dataRowsOf d) st fs).2) ∧
      (runRows (processStaffRow now) 2 (dataRowsOf d) st fs).1.map Prod.fst =
        List.range' 2 (dataRowsOf d).length ∧
      (uploadCsv "staff" d now pd pf st fs).1.errors =
        renderOutcomes (runRows (processStaffRow now) 2 (dataRowsOf d) st fs).1) := by
  have ht := jsTrim_ne_of_dataRows d hr
  constructor
  · intro hv
    have he := uploadCsv_kpi_rows d now pd pf st fs ht hr hv
    exact ⟨he, runRows_indices _ _ _ _ _, by rw [he]; rfl⟩
  · intro hv
    have he := uploadCsv_staff_rows d now pd pf st fs ht hr hv
    exact ⟨he, runRows_indices _ _ _ _ _, by rw [he]; rfl⟩

/-- Witness for C4: a file with one database fault injected on its first
row still processes the second row and reports both in order. -/
theorem uploadCsv_processes_all_rows_witness :
    uploadCsv "kpi" partialKpiCsv 0 demoParseDate demoParseFloat emptyStore
        [some "connection lost"] =
      (aggregate (runRows (processKpiRow demoParseDate demoParseFloat 0) 2
          (dataRowsOf partialKpiCsv) emptyStore [some "connection lost"]).1,
        (runRows (processKpiRow demoParseDate demoParseFloat 0) 2
          (dataRowsOf partialKpiCsv) emptyStore [some "connection lost"]).2) ∧
      (runRows (processKpiRow demoParseDate demoParseFloat 0) 2
        (dataRowsOf partialKpiCsv) emptyStore [some "connection lost"]).1.map Prod.fst =
        List.range' 2 (dataRowsOf partialKpiCsv).length ∧
      (uploadCsv "kpi" partialKpiCsv 0 demoParseDate demoParseFloat emptyStore
        [some "connection lost"]).1.errors =
        renderOutcomes (runRows (processKpiRow demoParseDate demoParseFloat 0) 2
          (dataRowsOf partialKpiCsv) emptyStore [some "connection lost"]).1 :=
  (uploadCsv_processes_all_rows partialKpiCsv 0 demoParseDate demoParseFloat emptyStore
    [some "connection lost"] (by decide)).1 (by decide)

/-! ## C2: natural-key uniqueness is preserved by every ingest -/

theorem upsertKpi_staff_eq (wd : Int) (ev pv dv : JsNumber) (now : Nat) (st : Store) :
    (upsertKpi wd ev pv dv now st).staff = st.staff := by
  unfold upsertKpi
  split <;> rfl

theorem upsertStaff_kpis_eq (n p dept : String) (sv : StaffStatus) (now : Nat) (st : Store) :
    (upsertStaff n p dept sv now st).kpis = st.kpis := by
  unfold upsertStaff
  split <;> rfl

theorem upsertKpi_keys_unique (wd : Int) (ev pv dv : JsNumber) (now : Nat) (st : Store)
    (h : kpiKeysUnique st) : kpiKeysUnique (upsertKpi wd ev pv dv now st) := by
  unfold kpiKeysUnique at h ⊢
  unfold upsertKpi
  split
  next hany =>
    rw [show ({st with kpis := st.kpis.map (fun r =>
        if r.week_date = wd then
          {r with efficiency := ev, production_rate := pv, defects_ppm := dv}
        else r)} : Store).kpis = st.kpis.map (fun r =>
        if r.week_date = wd then
          {r with efficiency := ev, production_rate := pv, defects_ppm := dv}
        else r) from rfl]
    rw [List.pairwise_map]
    refine h.imp ?_
    intro a b hab
    have key : ∀ r : KpiRecord, ((if r.week_date = wd then
        { r with efficiency := ev, production_rate := pv, defects_ppm := dv }
      else r) : KpiRecord).week_date = r.week_date := by
      intro r
      split <;> rfl
    simpa only [key] using hab
  next hany =>
    have hall : ∀ r ∈ st.kpis, ¬ r.week_date = wd := by
      simpa [List.any_eq_true] using hany
    rw [show ({ st with
        kpis := st.kpis ++ [⟨st.nextKpiId, wd, ev, pv, dv, now⟩]
        nextKpiId := st.nextKpiId + 1 } : Store).kpis =
      st.kpis ++ [⟨st.nextKpiId, wd, ev, pv, dv, now⟩] from rfl]
    rw [List.pairwise_append]
    refine ⟨h, List.pairwise_singleton _ _, ?_⟩
    intro a ha b hb
    rw [List.mem_singleton] at hb
    subst hb
    intro hcontra
    exact hall a ha hcontra

theorem upsertStaff_keys_unique (n p dept : String) (sv : StaffStatus) (now : Nat)
    (st : Store) (h : staffKeysUnique st) :
    staffKeysUnique (upsertStaff n p dept sv now st) := by
  unfold staffKeysUnique at h ⊢
  unfold upsertStaff
  split
  next dup hfind =>
    rw [show ({st with staff := st.staff.map (fun r =>
        if r.id = dup.id then {r with position := p, status := sv, updated_at := now}
        else r)} : Store).staff = st.staff.map (fun r =>
        if r.id = dup.id then {r with position := p, status := sv, updated_at := now}
        else r) from rfl]
    rw [List.pairwise_map]
    refine h.imp ?_
    intro a b hab
    have keyn : ∀ r : StaffRecord, ((if r.id = dup.id then
        { r with position := p, status := sv, updated_at := now }
      else r) : StaffRecord).name = r.name := by
      intro r
      split <;> rfl
    have keyd : ∀ r : StaffRecord, ((if r.id = dup.id then
        { r with position := p, status := sv, updated_at := now }
      else r) : StaffRecord).department = r.department := by
      intro r
      split <;> rfl
    simpa only [keyn, keyd] using hab
  next hfind =>
    have hall := List.find?_eq_none.mp hfind
    rw [show ({ st with
        staff := st.staff ++ [⟨st.nextStaffId, n, p, dept, sv, now, now⟩]
        nextStaffId := st.nextStaffId + 1 } : Store).staff =
      st.staff ++ [⟨st.nextStaffId, n, p, dept, sv, now, now⟩] from rfl]
    rw [List.pairwise_append]
    refine ⟨h, List.pairwise_singleton _ _, ?_⟩
    intro a ha b hb
    rw [List.mem_singleton] at hb
    subst hb
    intro hcontra
    have hmem : a ∈ st.staff.filter (fun r => r.name = n) := by
      rw [List.mem_filter]
      exact ⟨ha, by simpa using hcontra.1⟩
    exact absurd (by simpa using hcontra.2) (by simpa using hall a hmem)

theorem dbRound_store (apply : Store → Store) (st : Store) (fs : List Fault) :
    (dbRound apply st fs).2.1 = st ∨ (dbRound apply st fs).2.1 = apply st := by
  unfold dbRound
  split
  next m fs1 heq => exact Or.inl rfl
  next fs1 heq =>
    split
    next m fs2 heq2 => exact Or.inl rfl
    next => exact Or.inr rfl

theorem processKpiRow_preserves (pd : String → Option Int) (pf : String → Option JsNumber)
    (now : Nat) (row : String) (st : Store) (fs : List Fault)
    (hk : kpiKeysUnique st) (hs : staffKeysUnique st) :
    kpiKeysUnique (processKpiRow pd pf now row st fs).2.1 ∧
      staffKeysUnique (processKpiRow pd pf now row st fs).2.1 := by
  unfold processKpiRow
  split
  · exact ⟨hk, hs⟩
  next wd ev pv dv heq =>
    rcases dbRound_store (upsertKpi wd ev pv dv now) st fs with h | h <;> rw [h]
    · exact ⟨hk, hs⟩
    · exact ⟨upsertKpi_keys_unique wd ev pv dv now st hk, by
        unfold staffKeysUnique
        rw [upsertKpi_staff_eq]
        exact hs⟩

theorem processStaffRow_preserves (now : Nat) (row : String) (st : Store)
    (fs : List Fault) (hk : kpiKeysUnique st) (hs : staffKeysUnique st) :
    kpiKeysUnique (processStaffRow now row st fs).2.1 ∧
      staffKeysUnique (processStaffRow now row st fs).2.1 := by
  unfold processStaffRow
  split
  · exact ⟨hk, hs⟩
  next n p dept sv heq =>
    rcases dbRound_store (upsertStaff n p dept sv now) st fs with h | h <;> rw [h]
    · exact ⟨hk, hs⟩
    · exact ⟨by
        unfold kpiKeysUnique
        rw [upsertStaff_kpis_eq]
        exact hk, upsertStaff_keys_unique n p dept sv now st hs⟩

theorem runRows_preserves
    (step : String → Store → List Fault → Option RowError × Store × List Fault)
    (P : Store → Prop) (hstep : ∀ row st fs, P st → P (step row st fs).2.1) :
    ∀ (rows : List String) (i : Nat) (st : Store) (fs : List Fault),
      P st → P (runRows step i rows st fs).2.1 := by
  intro rows
  induction rows with
  | nil => intro i st fs h; exact h
  | cons row rest ih =>
    intro i st fs h
    rw [runRows]
    exact ih _ _ _ (hstep row st fs h)

/-- A same-key pair of staff rows inside one file: the second updates the
record the first inserted. -/
def dupStaffCsv : String :=
  "name,position,department,status\nJohn Doe,Engineer,Production,active\nJohn Doe,Senior Engineer,Production,on_vacation"

/-- Claim C2: rows are processed sequentially in file order against the
current store, so if the store starts with at most one KPI record per
`week_date` and at most one staff record per (`name`, `department`), both
uniqueness invariants hold after any `uploadCsv` run; in particular two
same-key rows of one file end in a single updated record, exhibited
concretely. -/
theorem uploadCsv_preserves_key_uniqueness (t d : String) (now : Nat)
    (pd : String → Option Int) (pf : String → Option JsNumber) (st : Store)
    (fs : List Fault) (hk : kpiKeysUnique st) (hs : staffKeysUnique st) :
    kpiKeysUnique (uploadCsv t d now pd pf st fs).2.1 ∧
      staffKeysUnique (uploadCsv t d now pd pf st fs).2.1 ∧
      (uploadCsv "staff" dupStaffCsv 0 demoParseDate demoParseFloat emptyStore []).2.1.staff =
        [⟨1, "John Doe", "Senior Engineer", "Production", .on_vacation, 0, 0⟩] := by
  have hmain : kpiKeysUnique (uploadCsv t d now pd pf st fs).2.1 ∧
      staffKeysUnique (uploadCsv t d now pd pf st fs).2.1 := by
    unfold uploadCsv
    split
    · exact ⟨hk, hs⟩
    · split
      · exact ⟨hk, hs⟩
      · split
        · exact ⟨hk, hs⟩
        · split
          · split
            · exact ⟨hk, hs⟩
            · exact runRows_preserves _
                (fun s => kpiKeysUnique s ∧ staffKeysUnique s)
                (fun row s f hp => processKpiRow_preserves pd pf now row s f hp.1 hp.2)
                _ _ _ _ ⟨hk, hs⟩
          · split
            · split
              · exact ⟨hk, hs⟩
              · exact runRows_preserves _
                  (fun s => kpiKeysUnique s ∧ staffKeysUnique s)
                  (fun row s f hp => processStaffRow_preserves now row s f hp.1 hp.2)
                  _ _ _ _ ⟨hk, hs⟩
            · exact ⟨hk, hs⟩
  exact ⟨hmain.1, hmain.2, by decide⟩

/-- Witness for C2. -/
theorem uploadCsv_preserves_key_uniqueness_witness :
    kpiKeysUnique (uploadCsv "staff" dupStaffCsv 0 demoParseDate demoParseFloat
        emptyStore []).2.1 ∧
      staffKeysUnique (uploadCsv "staff" dupStaffCsv 0 demoParseDate demoParseFloat
        emptyStore []).2.1 ∧
      (uploadCsv "staff" dupStaffCsv 0 demoParseDate demoParseFloat emptyStore []).2.1.staff =
        [⟨1, "John Doe", "Senior Engineer", "Production", .on_vacation, 0, 0⟩] :=
  uploadCsv_preserves_key_uniqueness "staff" dupStaffCsv 0 demoParseDate demoParseFloat
    emptyStore [] (List.Pairwise.nil) (List.Pairwise.nil)

/-! ## C6: upserts update only non-key fields, or insert when absent -/

theorem upsertKpi_nextStaffId_eq (wd : Int) (ev pv dv : JsNumber) (now : Nat) (st : Store) :
    (upsertKpi wd ev pv dv now st).nextStaffId = st.nextStaffId := by
  unfold upsertKpi
  split <;> rfl

theorem upsertStaff_nextKpiId_eq (n p dept : String) (sv : StaffStatus) (now : Nat)
    (st : Store) : (upsertStaff n p dept sv now st).nextKpiId = st.nextKpiId := by
  unfold upsertStaff
  split <;> rfl

theorem processKpiRow_valid (pd : String → Option Int) (pf : String → Option JsNumber)
    (now : Nat) (row : String) (st : Store) (wd : Int) (ev pv dv : JsNumber)
    (hv : kpiValidateRow pd pf ((jsSplit ',' row).map jsTrim) = .ok (wd, ev, pv, dv)) :
    processKpiRow pd pf now row st [] = (none, upsertKpi wd ev pv dv now st, []) := by
  unfold processKpiRow
  rw [hv]
  rfl

theorem processStaffRow_valid (now : Nat) (row : String) (st : Store)
    (n p dept : String) (sv : StaffStatus)
    (hv : staffValidateRow ((jsSplit ',' row).map jsTrim) = .ok (n, p, dept, sv)) :
    processStaffRow now row st [] = (none, upsertStaff n p dept sv now st, []) := by
  unfold processStaffRow
  rw [hv]
  rfl

/-- A KPI data row all of whose cells are valid. -/
def demoKpiRow : String := "2024-01-01,85.5,150.75,25.5"

/-- A staff data row all of whose cells are valid. -/
def demoStaffRow : String := "John Doe,Engineer,Production,active"

/-- Claim C6: a valid data row whose natural key matches a stored record
updates only the non-key fields — for KPI the three numeric columns
(`week_date`, `id`, `created_at` untouched), for staff `position`,
`status` and the refreshed `updated_at` (`name`, `department`, `id`,
`created_at` untouched) — while a row with no key match appends a fresh
record and bumps the serial counter; the other table is never touched. -/
theorem uploadCsv_upsert_frame (pd : String → Option Int) (pf : String → Option JsNumber)
    (now : Nat) (st : Store) (rowK rowS : String) (wd : Int) (ev pv dv : JsNumber)
    (n p dept : String) (sv : StaffStatus)
    (hkv : kpiValidateRow pd pf ((jsSplit ',' rowK).map jsTrim) = .ok (wd, ev, pv, dv))
    (hsv : staffValidateRow ((jsSplit ',' rowS).map jsTrim) = .ok (n, p, dept, sv)) :
    (processKpiRow pd pf now rowK st [] = (none, upsertKpi wd ev pv dv now st, []) ∧
      (upsertKpi wd ev pv dv now st).staff = st.staff ∧
      (upsertKpi wd ev pv dv now st).nextStaffId = st.nextStaffId ∧
      (st.kpis.any (fun r => r.week_date = wd) = true →
        (upsertKpi wd ev pv dv now st).nextKpiId = st.nextKpiId ∧
        List.Forall₂ (fun r r2 =>
            r2.id = r.id ∧ r2.week_date = r.week_date ∧ r2.created_at = r.created_at ∧
            (r.week_date = wd → r2.efficiency = ev ∧ r2.production_rate = pv ∧
              r2.defects_ppm = dv) ∧
            (r.week_date ≠ wd → r2 = r))
          st.kpis (upsertKpi wd ev pv dv now st).kpis) ∧
      (st.kpis.any (fun r => r.week_date = wd) = false →
        (upsertKpi wd ev pv dv now st).kpis =
          st.kpis ++ [⟨st.nextKpiId, wd, ev, pv, dv, now⟩] ∧
        (upsertKpi wd ev pv dv now st).nextKpiId = st.nextKpiId + 1)) ∧
    (processStaffRow now rowS st [] = (none, upsertStaff n p dept sv now st, []) ∧
      (upsertStaff n p dept sv now st).kpis = st.kpis ∧
      (upsertStaff n p dept sv now st).nextKpiId = st.nextKpiId ∧
      (∀ dup, (st.staff.filter (fun r => r.name = n)).find?
          (fun r => r.department = dept) = some dup →
        (upsertStaff n p dept sv now st).nextStaffId = st.nextStaffId ∧
        List.Forall₂ (fun r r2 =>
            r2.id = r.id ∧ r2.name = r.name ∧ r2.department = r.department ∧
            r2.created_at = r.created_at ∧
            (r.id = dup.id → r2.position = p ∧ r2.status = sv ∧ r2.updated_at = now) ∧
            (r.id ≠ dup.id → r2 = r))
          st.staff (upsertStaff n p dept sv now st).staff) ∧
      ((st.staff.filter (fun r => r.name = n)).find?
          (fun r => r.department = dept) = none →
        (upsertStaff n p dept sv now st).staff =
          st.staff ++ [⟨st.nextStaffId, n, p, dept, sv, now, now⟩] ∧
        (upsertStaff n p dept sv now st).nextStaffId = st.nextStaffId + 1)) := by
  refine ⟨⟨processKpiRow_valid pd pf now rowK st wd ev pv dv hkv,
      upsertKpi_staff_eq wd ev pv dv now st, upsertKpi_nextStaffId_eq wd ev pv dv now st,
      ?_, ?_⟩,
    processStaffRow_valid now rowS st n p dept sv hsv,
      upsertStaff_kpis_eq n p dept sv now st, upsertStaff_nextKpiId_eq n p dept sv now st,
      ?_, ?_⟩
  · intro hany
    unfold upsertKpi
    rw [if_pos hany]
    refine ⟨rfl, ?_⟩
    show List.Forall₂ _ st.kpis (st.kpis.map _)
    rw [List.forall₂_map_right_iff, List.forall₂_same]
    intro r hr
    by_cases hc : r.week_date = wd
    · rw [if_pos hc]
      exact ⟨rfl, rfl, rfl, fun _ => ⟨rfl, rfl, rfl⟩, fun hne => absurd hc hne⟩
    · rw [if_neg hc]
      exact ⟨rfl, rfl, rfl, fun hx => absurd hx hc, fun _ => rfl⟩
  · intro hany
    unfold upsertKpi
    rw [hany]
    exact ⟨rfl, rfl⟩
  · intro dup hdup
    unfold upsertStaff
    rw [hdup]
    refine ⟨rfl, ?_⟩
    show List.Forall₂ _ st.staff (st.staff.map _)
    rw [List.forall₂_map_right_iff, List.forall₂_same]
    intro r hr
    by_cases hc : r.id = dup.id
    · rw [if_pos hc]
      exact ⟨rfl, rfl, rfl, rfl, fun _ => ⟨rfl, rfl, rfl⟩, fun hne => absurd hc hne⟩
    · rw [if_neg hc]
      exact ⟨rfl, rfl, rfl, rfl, fun hx => absurd hx hc, fun _ => rfl⟩
  · intro hnone
    unfold upsertStaff
    rw [hnone]
    exact ⟨rfl, rfl⟩

/-- Witness for C6. -/
theorem uploadCsv_upsert_frame_witness :
    processKpiRow demoParseDate demoParseFloat 7 demoKpiRow emptyStore [] =
      (none, upsertKpi 20240101 ⟨855, 1⟩ ⟨15075, 2⟩ ⟨255, 1⟩ 7 emptyStore, []) :=
  (uploadCsv_upsert_frame demoParseDate demoParseFloat 7 emptyStore demoKpiRow demoStaffRow
    20240101 ⟨855, 1⟩ ⟨15075, 2⟩ ⟨255, 1⟩ "John Doe" "Engineer" "Production" .active
    (by rfl) (by rfl)).1.1

/-! ## C10: CRLF input behaves exactly like LF input -/

/-- Replace every LF by CRLF (character level). -/
def crlfChars : List Char → List Char
  | [] => []
  | c :: cs => if c = '\n' then '\r' :: '\n' :: crlfChars cs else c :: crlfChars cs

/-- Replace every LF line ending of a string by CRLF. -/
def crlfString (s : String) : String := String.mk (crlfChars s.data)

theorem crlfChars_append (a b : List Char) :
    crlfChars (a ++ b) = crlfChars a ++ crlfChars b := by
  induction a with
  | nil => rfl
  | cons c cs ih =>
    by_cases hn : c = '\n' <;> simp [crlfChars, hn, ih]

theorem crlfChars_eq_nil (l : List Char) : crlfChars l = [] ↔ l = [] := by
  cases l with
  | nil => simp [crlfChars]
  | cons c cs =>
    constructor
    · intro h
      unfold crlfChars at h
      split at h <;> simp at h
    · intro h
      simp at h

theorem dropWhile_crlfChars (l : List Char) :
    (crlfChars l).dropWhile isJsSpace = crlfChars (l.dropWhile isJsSpace) := by
  induction l with
  | nil => rfl
  | cons c cs ih =>
    by_cases hn : c = '\n'
    · subst hn
      rw [show crlfChars ('\n' :: cs) = '\r' :: '\n' :: crlfChars cs from rfl]
      rw [show ('\r' :: '\n' :: crlfChars cs).dropWhile isJsSpace =
        (crlfChars cs).dropWhile isJsSpace from by simp [List.dropWhile, isJsSpace]]
      rw [show ('\n' :: cs).dropWhile isJsSpace = cs.dropWhile isJsSpace from by
        simp [List.dropWhile, isJsSpace]]
      exact ih
    · rw [show crlfChars (c :: cs) = c :: crlfChars cs from by simp [crlfChars, hn]]
      by_cases hws : isJsSpace c = true
      · rw [show (c :: crlfChars cs).dropWhile isJsSpace =
          (crlfChars cs).dropWhile isJsSpace from by simp [List.dropWhile, hws]]
        rw [show (c :: cs).dropWhile isJsSpace = cs.dropWhile isJsSpace from by
          simp [List.dropWhile, hws]]
        exact ih
      · rw [show (c :: crlfChars cs).dropWhile isJsSpace = c :: crlfChars cs from by
          simp [List.dropWhile, hws]]
        rw [show (c :: cs).dropWhile isJsSpace = c :: cs from by
          simp [List.dropWhile, hws]]
        rw [show crlfChars (c :: cs) = c :: crlfChars cs from by simp [crlfChars, hn]]

theorem trimRightChars_append_ws (x : List Char) (c : Char) (hc : isJsSpace c = true) :
    trimRightChars (x ++ [c]) = trimRightChars x := by
  unfold trimRightChars
  rw [List.reverse_append]
  simp [List.dropWhile, hc]

theorem trimRightChars_append_nonws (x : List Char) (c : Char)
    (hc : isJsSpace c = false) : trimRightChars (x ++ [c]) = x ++ [c] := by
  unfold trimRightChars
  rw [List.reverse_append]
  simp [List.dropWhile, hc]

theorem trimRightChars_crlfChars (l : List Char) :
    trimRightChars (crlfChars l) = crlfChars (trimRightChars l) := by
  induction l using List.reverseRecOn with
  | nil => rfl
  | append_singleton xs c ih =>
    rw [crlfChars_append]
    by_cases hn : c = '\n'
    · subst hn
      rw [show crlfChars ['\n'] = ['\r', '\n'] from rfl]
      rw [show crlfChars xs ++ ['\r', '\n'] = (crlfChars xs ++ ['\r']) ++ ['\n'] from by
        simp]
      rw [trimRightChars_append_ws _ '\n' (by decide),
        trimRightChars_append_ws _ '\r' (by decide), ih,
        trimRightChars_append_ws _ '\n' (by decide)]
    · rw [show crlfChars [c] = [c] from by simp [crlfChars, hn]]
      by_cases hws : isJsSpace c = true
      · rw [trimRightChars_append_ws _ c hws, ih, trimRightChars_append_ws _ c hws]
      · rw [trimRightChars_append_nonws _ c (by simpa using hws),
          trimRightChars_append_nonws _ c (by simpa using hws), crlfChars_append]
        rw [show crlfChars [c] = [c] from by simp [crlfChars, hn]]

theorem trimChars_crlfChars (l : List Char) :
    trimChars (crlfChars l) = crlfChars (trimChars l) := by
  unfold trimChars trimLeftChars
  rw [dropWhile_crlfChars, trimRightChars_crlfChars]

theorem splitOnChar_cons_sep (sep : Char) (cs : List Char) :
    splitOnChar sep (sep :: cs) = [] :: splitOnChar sep cs := by
  simp [splitOnChar]

theorem splitOnChar_cons_ne (sep c : Char) (cs : List Char) (h : ¬c = sep)
    (q : List Char) (qs : List (List Char)) (hq : splitOnChar sep cs = q :: qs) :
    splitOnChar sep (c :: cs) = (c :: q) :: qs := by
  simp [splitOnChar, h, hq]

theorem splitOnChar_exists_cons (sep : Char) (l : List Char) :
    ∃ q qs, splitOnChar sep l = q :: qs := by
  cases h : splitOnChar sep l with
  | nil => exact absurd h (splitOnChar_ne_nil sep l)
  | cons q qs => exact ⟨q, qs, rfl⟩

/-- Append a trailing CR to every piece except the last (what CRLF
expansion does to the newline-split pieces). -/
def addR : List (List Char) → List (List Char)
  | [] => []
  | [p] => [p]
  | p :: ps => (p ++ ['\r']) :: addR ps

theorem addR_cons_cons (p q : List Char) (qs : List (List Char)) :
    addR (p :: q :: qs) = (p ++ ['\r']) :: addR (q :: qs) := rfl

theorem addR_tail (xs : List (List Char)) : (addR xs).tail = addR xs.tail := by
  match xs with
  | [] => rfl
  | [p] => rfl
  | p :: q :: qs => rfl

theorem addR_length (xs : List (List Char)) : (addR xs).length = xs.length := by
  match xs with
  | [] => rfl
  | [p] => rfl
  | p :: q :: qs =>
    rw [addR_cons_cons]
    simp [addR_length (q :: qs)]

theorem addR_rel (xs : List (List Char)) :
    List.Forall₂ (fun a b => b = a ∨ b = a ++ ['\r']) xs (addR xs) := by
  match xs with
  | [] => exact List.Forall₂.nil
  | [p] => exact List.Forall₂.cons (Or.inl rfl) List.Forall₂.nil
  | p :: q :: qs =>
    rw [addR_cons_cons]
    exact List.Forall₂.cons (Or.inr rfl) (addR_rel (q :: qs))

theorem splitOnChar_crlfChars (l : List Char) :
    splitOnChar '\n' (crlfChars l) = addR (splitOnChar '\n' l) := by
  induction l with
  | nil => rfl
  | cons c cs ih =>
    obtain ⟨q, qs, hq⟩ := splitOnChar_exists_cons '\n' cs
    by_cases hn : c = '\n'
    · subst hn
      rw [show crlfChars ('\n' :: cs) = '\r' :: '\n' :: crlfChars cs from rfl]
      rw [splitOnChar_cons_sep]
      rw [show splitOnChar '\n' ('\r' :: '\n' :: crlfChars cs) =
          ('\r' :: []) :: splitOnChar '\n' (crlfChars cs) from
        splitOnChar_cons_ne '\n' '\r' _ (by decide) [] _ (splitOnChar_cons_sep _ _)]
      rw [ih, hq, addR_cons_cons]
      rfl
    · rw [show crlfChars (c :: cs) = c :: crlfChars cs from by simp [crlfChars, hn]]
      rw [splitOnChar_cons_ne '\n' c cs hn q qs hq]
      cases qs with
      | nil =>
        have hc : splitOnChar '\n' (crlfChars cs) = [q] := by
          rw [ih, hq]
          rfl
        rw [splitOnChar_cons_ne '\n' c _ hn q [] hc]
        rfl
      | cons q2 qs2 =>
        have hc : splitOnChar '\n' (crlfChars cs) = (q ++ ['\r']) :: addR (q2 :: qs2) := by
          rw [ih, hq, addR_cons_cons]
        rw [splitOnChar_cons_ne '\n' c _ hn (q ++ ['\r']) _ hc]
        rw [addR_cons_cons]
        simp

/-- Map a function over only the last element. -/
def mapLast (f : List Char → List Char) : List (List Char) → List (List Char)
  | [] => []
  | [p] => [f p]
  | p :: ps => p :: mapLast f ps

theorem mapLast_cons_cons (f : List Char → List Char) (p q : List Char)
    (qs : List (List Char)) : mapLast f (p :: q :: qs) = p :: mapLast f (q :: qs) := rfl

theorem splitOnChar_append_single (sep c : Char) (hc : ¬c = sep) (l : List Char) :
    splitOnChar sep (l ++ [c]) = mapLast (fun p => p ++ [c]) (splitOnChar sep l) := by
  induction l with
  | nil =>
    rw [show ([] : List Char) ++ [c] = [c] from rfl]
    rw [show splitOnChar sep [c] = [[c]] from by simp [splitOnChar, hc]]
    rfl
  | cons a as ih =>
    obtain ⟨q, qs, hq⟩ := splitOnChar_exists_cons sep as
    rw [show (a :: as) ++ [c] = a :: (as ++ [c]) from rfl]
    by_cases ha : a = sep
    · subst ha
      rw [splitOnChar_cons_sep, splitOnChar_cons_sep, ih, hq]
      cases qs with
      | nil => rfl
      | cons q2 qs2 => rfl
    · rw [splitOnChar_cons_ne sep a as ha q qs hq]
      cases qs with
      | nil =>
        have h2 : splitOnChar sep (as ++ [c]) = [q ++ [c]] := by
          rw [ih, hq]
          rfl
        rw [splitOnChar_cons_ne sep a _ ha (q ++ [c]) [] h2]
        rfl
      | cons q2 qs2 =>
        have h2 : splitOnChar sep (as ++ [c]) = q :: mapLast (fun p => p ++ [c]) (q2 :: qs2) := by
          rw [ih, hq, mapLast_cons_cons]
        rw [splitOnChar_cons_ne sep a _ ha q _ h2]
        rw [mapLast_cons_cons]

theorem mkString_eq_empty_iff (l : List Char) : String.mk l = "" ↔ l = [] := by
  constructor
  · intro h
    exact congrArg String.data h
  · intro h
    rw [h]

theorem dropWhile_append_char (p : Char → Bool) (a b : List Char) :
    (a ++ b).dropWhile p =
      if a.dropWhile p = [] then b.dropWhile p else a.dropWhile p ++ b := by
  induction a with
  | nil => simp
  | cons x xs ih =>
    by_cases hx : p x = true
    · rw [show ((x :: xs) ++ b).dropWhile p = (xs ++ b).dropWhile p from by
        simp [List.dropWhile, hx]]
      rw [show (x :: xs).dropWhile p = xs.dropWhile p from by simp [List.dropWhile, hx]]
      exact ih
    · rw [show ((x :: xs) ++ b).dropWhile p = x :: (xs ++ b) from by
        simp [List.dropWhile, hx]]
      rw [show (x :: xs).dropWhile p = x :: xs from by simp [List.dropWhile, hx]]
      rw [if_neg (by simp)]
      rfl

theorem trimChars_append_cr (x : List Char) :
    trimChars (x ++ ['\r']) = trimChars x := by
  unfold trimChars trimLeftChars
  rw [dropWhile_append_char]
  by_cases h : x.dropWhile isJsSpace = []
  · rw [if_pos h, h]
    rfl
  · rw [if_neg h, trimRightChars_append_ws _ '\r' (by decide)]

theorem map_mapLast_eq {α : Type} (g : List Char → α) (f : List Char → List Char)
    (hg : ∀ p, g (f p) = g p) (xs : List (List Char)) :
    (mapLast f xs).map g = xs.map g := by
  match xs with
  | [] => rfl
  | [p] =>
    rw [show mapLast f [p] = [f p] from rfl]
    simp [hg]
  | p :: q :: qs =>
    rw [mapLast_cons_cons]
    rw [List.map_cons, List.map_cons, map_mapLast_eq g f hg (q :: qs)]

theorem rowCells_append_cr (l : List Char) :
    (jsSplit ',' (String.mk (l ++ ['\r']))).map jsTrim =
      (jsSplit ',' (String.mk l)).map jsTrim := by
  unfold jsSplit
  rw [show (String.mk (l ++ ['\r'])).data = l ++ ['\r'] from rfl,
    show (String.mk l).data = l from rfl]
  rw [splitOnChar_append_single ',' '\r' (by decide) l]
  rw [List.map_map, List.map_map]
  exact map_mapLast_eq (fun p => jsTrim (String.mk p)) (fun p => p ++ ['\r'])
    (fun p => congrArg String.mk (trimChars_append_cr p)) _

theorem processKpiRow_congr_cr (pd : String → Option Int) (pf : String → Option JsNumber)
    (now : Nat) (l : List Char) (st : Store) (fs : List Fault) :
    processKpiRow pd pf now (String.mk (l ++ ['\r'])) st fs =
      processKpiRow pd pf now (String.mk l) st fs := by
  unfold processKpiRow
  rw [rowCells_append_cr l]

theorem processStaffRow_congr_cr (now : Nat) (l : List Char) (st : Store)
    (fs : List Fault) :
    processStaffRow now (String.mk (l ++ ['\r'])) st fs =
      processStaffRow now (String.mk l) st fs := by
  unfold processStaffRow
  rw [rowCells_append_cr l]

theorem runRows_congr
    (step : String → Store → List Fault → Option RowError × Store × List Fault)
    (rows1 rows2 : List String)
    (h : List.Forall₂ (fun r1 r2 => ∀ st fs, step r1 st fs = step r2 st fs) rows1 rows2) :
    ∀ (i : Nat) (st : Store) (fs : List Fault),
      runRows step i rows1 st fs = runRows step i rows2 st fs := by
  induction h with
  | nil => intro i st fs; rfl
  | cons h1 h2 ih =>
    intro i st fs
    rw [runRows, runRows, h1 st fs, ih (i + 1)]

/-- Early return of `uploadCsv` on blank input. -/
theorem uploadCsv_empty (t d : String) (now : Nat) (pd : String → Option Int)
    (pf : String → Option JsNumber) (st : Store) (fs : List Fault)
    (h : jsTrim d = "") :
    uploadCsv t d now pd pf st fs = (⟨false, 0, ["CSV data is empty"]⟩, st, fs) := by
  unfold uploadCsv
  rw [if_pos h]

/-- Early return of `uploadCsv` on a headers-only input. -/
theorem uploadCsv_headers_only (t d : String) (now : Nat) (pd : String → Option Int)
    (pf : String → Option JsNumber) (st : Store) (fs : List Fault)
    (ht : jsTrim d ≠ "") (hr : dataRowsOf d = []) :
    uploadCsv t d now pd pf st fs =
      (⟨false, 0, ["CSV contains only headers, no data rows"]⟩, st, fs) := by
  unfold uploadCsv
  rw [if_neg ht]
  split
  next hnil => exact absurd hnil (jsSplit_ne_nil _ _)
  next headerLine dataRows hcons =>
    have hrows : dataRowsOf d = dataRows := by simp [dataRowsOf, csvLines, hcons]
    have hdr : dataRows = [] := hrows.symm.trans hr
    rw [if_pos (by simp [hdr])]

theorem addR_ne_nil (x : List Char) (xs : List (List Char)) : addR (x :: xs) ≠ [] := by
  match xs with
  | [] => simp [addR]
  | y :: ys =>
    rw [addR_cons_cons]
    simp

/-- Claim C10: expanding every LF line ending into CRLF changes nothing —
`uploadCsv` returns the same result, leaves the same store and consumes
the same fault-oracle entries, because lines are split on LF and every
header and data cell is trimmed, which removes the residual CR. -/
theorem uploadCsv_crlf_invariant (t d : String) (now : Nat) (pd : String → Option Int)
    (pf : String → Option JsNumber) (st : Store) (fs : List Fault) :
    uploadCsv t (crlfString d) now pd pf st fs = uploadCsv t d now pd pf st fs := by
  by_cases hemp : jsTrim d = ""
  · have h0 : trimChars d.data = [] := congrArg String.data hemp
    have hemp2 : jsTrim (crlfString d) = "" := by
      show String.mk (trimChars (crlfChars d.data)) = ""
      rw [mkString_eq_empty_iff, trimChars_crlfChars, h0]
      rfl
    rw [uploadCsv_empty t (crlfString d) now pd pf st fs hemp2,
      uploadCsv_empty t d now pd pf st fs hemp]
  · have hemp2 : jsTrim (crlfString d) ≠ "" := by
      intro h
      apply hemp
      have h2 : trimChars (crlfChars d.data) = [] := congrArg String.data h
      rw [trimChars_crlfChars] at h2
      have h3 : trimChars d.data = [] := (crlfChars_eq_nil _).mp h2
      exact (mkString_eq_empty_iff _).mpr h3
    obtain ⟨q, qs, hL⟩ := splitOnChar_exists_cons '\n' (trimChars d.data)
    have hlines_d : csvLines d = String.mk q :: qs.map String.mk := by
      show (splitOnChar '\n' (trimChars d.data)).map String.mk =
        String.mk q :: qs.map String.mk
      rw [hL]
      rfl
    have hlines_c : csvLines (crlfString d) = (addR (q :: qs)).map String.mk := by
      show (splitOnChar '\n' (trimChars (crlfChars d.data))).map String.mk =
        (addR (q :: qs)).map String.mk
      rw [trimChars_crlfChars, splitOnChar_crlfChars, hL]
    cases qs with
    | nil =>
      have hr_d : dataRowsOf d = [] := by
        unfold dataRowsOf
        rw [hlines_d]
        rfl
      have hr_c : dataRowsOf (crlfString d) = [] := by
        unfold dataRowsOf
        rw [hlines_c]
        rfl
      rw [uploadCsv_headers_only t (crlfString d) now pd pf st fs hemp2 hr_c,
        uploadCsv_headers_only t d now pd pf st fs hemp hr_d]
    | cons q2 qs2 =>
      have hr_d : dataRowsOf d = (q2 :: qs2).map String.mk := by
        unfold dataRowsOf
        rw [hlines_d]
        rfl
      have hr_c : dataRowsOf (crlfString d) = (addR (q2 :: qs2)).map String.mk := by
        unfold dataRowsOf
        rw [hlines_c, addR_cons_cons]
        rfl
      have hne_d : dataRowsOf d ≠ [] := by
        rw [hr_d]
        simp
      have hne_c : dataRowsOf (crlfString d) ≠ [] := by
        rw [hr_c]
        simp [addR_ne_nil q2 qs2]
      have hhead : headerCellsOf (crlfString d) = headerCellsOf d := by
        unfold headerCellsOf
        rw [hlines_c, hlines_d, addR_cons_cons]
        show (jsSplit ',' (String.mk (q ++ ['\r']))).map jsTrim =
          (jsSplit ',' (String.mk q)).map jsTrim
        exact rowCells_append_cr q
      by_cases hk : t = "kpi"
      · subst hk
        cases hv : validateHeaders (headerCellsOf d) kpiHeaders with
        | some m =>
          rw [uploadCsv_header_err "kpi" (crlfString d) now pd pf st fs m (Or.inl rfl)
              hemp2 hne_c (by rw [hhead]; exact hv),
            uploadCsv_header_err "kpi" d now pd pf st fs m (Or.inl rfl) hemp hne_d hv]
        | none =>
          rw [uploadCsv_kpi_rows (crlfString d) now pd pf st fs hemp2 hne_c
              (by rw [hhead]; exact hv),
            uploadCsv_kpi_rows d now pd pf st fs hemp hne_d hv]
          have hrun : runRows (processKpiRow pd pf now) 2 (dataRowsOf (crlfString d)) st fs =
              runRows (processKpiRow pd pf now) 2 (dataRowsOf d) st fs := by
            rw [hr_c, hr_d]
            apply runRows_congr
            simp only [List.forall₂_map_left_iff, List.forall₂_map_right_iff]
            apply List.Forall₂.flip
            refine (addR_rel (q2 :: qs2)).imp ?_
            intro a b hab st2 fs2
            rcases hab with rfl | hcr
            · rfl
            · rw [hcr]
              exact processKpiRow_congr_cr pd pf now a st2 fs2
          rw [hrun]
      · by_cases hs : t = "staff"
        · subst hs
          cases hv : validateHeaders (headerCellsOf d) staffHeaders with
          | some m =>
            rw [uploadCsv_header_err "staff" (crlfString d) now pd pf st fs m (Or.inr rfl)
                hemp2 hne_c (by rw [hhead]; exact hv),
              uploadCsv_header_err "staff" d now pd pf st fs m (Or.inr rfl) hemp hne_d hv]
          | none =>
            rw [uploadCsv_staff_rows (crlfString d) now pd pf st fs hemp2 hne_c
                (by rw [hhead]; exact hv),
              uploadCsv_staff_rows d now pd pf st fs hemp hne_d hv]
            have hrun : runRows (processStaffRow now) 2 (dataRowsOf (crlfString d)) st fs =
                runRows (processStaffRow now) 2 (dataRowsOf d) st fs := by
              rw [hr_c, hr_d]
              apply runRows_congr
              simp only [List.forall₂_map_left_iff, List.forall₂_map_right_iff]
              apply List.Forall₂.flip
              refine (addR_rel (q2 :: qs2)).imp ?_
              intro a b hab st2 fs2
              rcases hab with rfl | hcr
              · rfl
              · rw [hcr]
                exact processStaffRow_congr_cr now a st2 fs2
            rw [hrun]
        · rw [uploadCsv_invalid_type t (crlfString d) now pd pf st fs hk hs hemp2 hne_c,
            uploadCsv_invalid_type t d now pd pf st fs hk hs hemp hne_d]

/-! ## C1: re-ingesting the same well-formed file is an update-only replay -/

/-- The typed write a valid KPI row produces (`none` when the row fails
validation). -/
def kpiWriteOf (pd : String → Option Int) (pf : String → Option JsNumber)
    (row : String) : Option (Int × JsNumber × JsNumber × JsNumber) :=
  (kpiValidateRow pd pf ((jsSplit ',' row).map jsTrim)).toOption

/-- Fold a list of KPI writes over the store, one upsert per write. -/
def applyKpiWrites (ws : List (Int × JsNumber × JsNumber × JsNumber)) (now : Nat)
    (st : Store) : Store :=
  ws.foldl (fun s w => upsertKpi w.1 w.2.1 w.2.2.1 w.2.2.2 now s) st

/-- The last write of the list targeting `week_date` key `k`. -/
def lastKpiWrite (ws : List (Int × JsNumber × JsNumber × JsNumber)) (k : Int) :
    Option (Int × JsNumber × JsNumber × JsNumber) :=
  ws.foldl (fun acc w => if w.1 = k then some w else acc) none

/-- Overwrite the three numeric columns of a record with a write\x27s values. -/
def setKpiVals (r : KpiRecord) (w : Int × JsNumber × JsNumber × JsNumber) : KpiRecord :=
  { r with efficiency := w.2.1, production_rate := w.2.2.1, defects_ppm := w.2.2.2 }

/-- Apply to a record the last write of the list that targets its key. -/
def applyLastKpi (ws : List (Int × JsNumber × JsNumber × JsNumber)) (r : KpiRecord) :
    KpiRecord :=
  match lastKpiWrite ws r.week_date with
  | some w => setKpiVals r w
  | none => r

theorem kpiWriteOf_some (pd : String → Option Int) (pf : String → Option JsNumber)
    (row : String) (w : Int × JsNumber × JsNumber × JsNumber)
    (h : kpiWriteOf pd pf row = some w) :
    kpiValidateRow pd pf ((jsSplit ',' row).map jsTrim) = .ok w := by
  unfold kpiWriteOf at h
  cases hv : kpiValidateRow pd pf ((jsSplit ',' row).map jsTrim) with
  | error e =>
    rw [hv] at h
    simp [Except.toOption] at h
  | ok a =>
    rw [hv] at h
    simp [Except.toOption] at h
    rw [h]

theorem renderOutcomes_eq_nil_iff (outs : List (Nat × Option RowError)) :
    renderOutcomes outs = [] ↔ ∀ io ∈ outs, io.2 = none := by
  induction outs with
  | nil => simp [renderOutcomes]
  | cons io rest ih =>
    unfold renderOutcomes at ih ⊢
    rw [List.filterMap_cons]
    cases h : io.2 with
    | none => simp [h, ih]
    | some e => simp [h]

theorem runRows_kpi_all_valid (pd : String → Option Int) (pf : String → Option JsNumber)
    (now : Nat) :
    ∀ (rows : List String) (i : Nat) (st : Store),
      (∀ row ∈ rows, (kpiWriteOf pd pf row).isSome) →
      (runRows (processKpiRow pd pf now) i rows st []).2.1 =
          applyKpiWrites (rows.filterMap (kpiWriteOf pd pf)) now st ∧
        (runRows (processKpiRow pd pf now) i rows st []).2.2 = [] ∧
        ∀ io ∈ (runRows (processKpiRow pd pf now) i rows st []).1, io.2 = none := by
  intro rows
  induction rows with
  | nil =>
    intro i st hval
    refine ⟨rfl, rfl, ?_⟩
    intro io h
    simp [runRows] at h
  | cons row rest ih =>
    intro i st hval
    obtain ⟨w, hw⟩ := Option.isSome_iff_exists.mp (hval row (List.mem_cons_self row rest))
    have hstep : processKpiRow pd pf now row st [] =
        (none, upsertKpi w.1 w.2.1 w.2.2.1 w.2.2.2 now st, []) :=
      processKpiRow_valid pd pf now row st w.1 w.2.1 w.2.2.1 w.2.2.2
        (kpiWriteOf_some pd pf row w hw)
    have hrest := ih (i + 1) (upsertKpi w.1 w.2.1 w.2.2.1 w.2.2.2 now st)
      (fun r hr => hval r (List.mem_cons_of_mem row hr))
    rw [runRows, hstep]
    refine ⟨?_, hrest.2.1, ?_⟩
    · have hfm : List.filterMap (kpiWriteOf pd pf) (row :: rest) =
          w :: rest.filterMap (kpiWriteOf pd pf) := by
        simp [List.filterMap_cons, hw]
      rw [hfm]
      exact hrest.1
    · intro io hio
      rcases List.mem_cons.mp hio with h | h
      · rw [h]
      · exact hrest.2.2 io h

theorem runRows_kpi_no_errors_valid (pd : String → Option Int)
    (pf : String → Option JsNumber) (now : Nat) :
    ∀ (rows : List String) (i : Nat) (st : Store),
      (∀ io ∈ (runRows (processKpiRow pd pf now) i rows st []).1, io.2 = none) →
      ∀ row ∈ rows, (kpiWriteOf pd pf row).isSome := by
  intro rows
  induction rows with
  | nil =>
    intro i st h row hrow
    simp at hrow
  | cons row rest ih =>
    intro i st h r hr
    have hfst : (processKpiRow pd pf now row st []).1 = none := by
      have := h (i, (processKpiRow pd pf now row st []).1) (by rw [runRows]; exact List.mem_cons_self _ _)
      exact this
    cases hv : kpiValidateRow pd pf ((jsSplit ',' row).map jsTrim) with
    | error e =>
      exfalso
      have : (processKpiRow pd pf now row st []).1 = some e := by
        unfold processKpiRow
        rw [hv]
      rw [this] at hfst
      exact Option.noConfusion hfst
    | ok w =>
      have hstep : processKpiRow pd pf now row st [] =
          (none, upsertKpi w.1 w.2.1 w.2.2.1 w.2.2.2 now st, []) :=
        processKpiRow_valid pd pf now row st w.1 w.2.1 w.2.2.1 w.2.2.2 hv
      rcases List.mem_cons.mp hr with h2 | h2
      · subst h2
        unfold kpiWriteOf
        rw [hv]
        rfl
      · refine ih (i + 1) (upsertKpi w.1 w.2.1 w.2.2.1 w.2.2.2 now st) ?_ r h2
        intro io hio
        apply h
        rw [runRows, hstep]
        exact List.mem_cons_of_mem _ hio

theorem upsertKpi_key_stays (wd : Int) (ev pv dv : JsNumber) (now : Nat) (st : Store)
    (k : Int) (h : st.kpis.any (fun r => r.week_date = k) = true) :
    (upsertKpi wd ev pv dv now st).kpis.any (fun r => r.week_date = k) = true := by
  unfold upsertKpi
  split
  · simp only [List.any_eq_true] at h ⊢
    obtain ⟨r, hr, hk⟩ := h
    refine ⟨if r.week_date = wd then
        { r with efficiency := ev, production_rate := pv, defects_ppm := dv }
      else r, List.mem_map_of_mem _ hr, ?_⟩
    split <;> exact hk
  · simp only [List.any_eq_true] at h ⊢
    obtain ⟨r, hr, hk⟩ := h
    exact ⟨r, List.mem_append_left _ hr, hk⟩

theorem upsertKpi_own_key (wd : Int) (ev pv dv : JsNumber) (now : Nat) (st : Store) :
    (upsertKpi wd ev pv dv now st).kpis.any (fun r => r.week_date = wd) = true := by
  unfold upsertKpi
  split
  next hany =>
    simp only [List.any_eq_true] at hany ⊢
    obtain ⟨r, hr, hk⟩ := hany
    refine ⟨if r.week_date = wd then
        { r with efficiency := ev, production_rate := pv, defects_ppm := dv }
      else r, List.mem_map_of_mem _ hr, ?_⟩
    split <;> exact hk
  next =>
    simp only [List.any_eq_true]
    exact ⟨⟨st.nextKpiId, wd, ev, pv, dv, now⟩,
      List.mem_append_right _ (List.mem_singleton_self _), by simp⟩

theorem applyKpiWrites_cons (w : Int × JsNumber × JsNumber × JsNumber)
    (ws : List (Int × JsNumber × JsNumber × JsNumber)) (now : Nat) (st : Store) :
    applyKpiWrites (w :: ws) now st =
      applyKpiWrites ws now (upsertKpi w.1 w.2.1 w.2.2.1 w.2.2.2 now st) := rfl

theorem applyKpiWrites_append_single (ws : List (Int × JsNumber × JsNumber × JsNumber))
    (w : Int × JsNumber × JsNumber × JsNumber) (now : Nat) (st : Store) :
    applyKpiWrites (ws ++ [w]) now st =
      upsertKpi w.1 w.2.1 w.2.2.1 w.2.2.2 now (applyKpiWrites ws now st) := by
  unfold applyKpiWrites
  rw [List.foldl_append]
  rfl

theorem applyKpiWrites_keeps_key (now : Nat) (k : Int) :
    ∀ (ws : List (Int × JsNumber × JsNumber × JsNumber)) (st : Store),
      st.kpis.any (fun r => r.week_date = k) = true →
      (applyKpiWrites ws now st).kpis.any (fun r => r.week_date = k) = true := by
  intro ws
  induction ws with
  | nil => intro st h; exact h
  | cons w ws2 ih =>
    intro st h
    rw [applyKpiWrites_cons]
    exact ih _ (upsertKpi_key_stays w.1 w.2.1 w.2.2.1 w.2.2.2 now st k h)

theorem applyKpiWrites_key_present (now : Nat) :
    ∀ (ws : List (Int × JsNumber × JsNumber × JsNumber)) (st : Store)
      (w : Int × JsNumber × JsNumber × JsNumber), w ∈ ws →
      (applyKpiWrites ws now st).kpis.any (fun r => r.week_date = w.1) = true := by
  intro ws
  induction ws with
  | nil =>
    intro st w hw
    simp at hw
  | cons w2 ws2 ih =>
    intro st w hw
    rcases List.mem_cons.mp hw with h | h
    · subst h
      rw [applyKpiWrites_cons]
      exact applyKpiWrites_keeps_key now w.1 ws2 _
        (upsertKpi_own_key w.1 w.2.1 w.2.2.1 w.2.2.2 now st)
    · rw [applyKpiWrites_cons]
      exact ih _ w h

theorem lastKpiWrite_foldl_init (k : Int) :
    ∀ (ws : List (Int × JsNumber × JsNumber × JsNumber))
      (a : Option (Int × JsNumber × JsNumber × JsNumber)),
      ws.foldl (fun acc w => if w.1 = k then some w else acc) a =
        match lastKpiWrite ws k with
        | some w2 => some w2
        | none => a := by
  intro ws
  induction ws with
  | nil => intro a; rfl
  | cons w2 ws2 ih =>
    intro a
    rw [List.foldl_cons, ih (if w2.1 = k then some w2 else a)]
    have hL : lastKpiWrite (w2 :: ws2) k =
        match lastKpiWrite ws2 k with
        | some w3 => some w3
        | none => if w2.1 = k then some w2 else none := by
      unfold lastKpiWrite
      rw [List.foldl_cons, ih (if w2.1 = k then some w2 else none)]
      rfl
    rw [hL]
    cases lastKpiWrite ws2 k with
    | some w3 => rfl
    | none => by_cases hwk : w2.1 = k <;> simp [hwk]

theorem lastKpiWrite_cons (w : Int × JsNumber × JsNumber × JsNumber)
    (ws : List (Int × JsNumber × JsNumber × JsNumber)) (k : Int) :
    lastKpiWrite (w :: ws) k =
      match lastKpiWrite ws k with
      | some w2 => some w2
      | none => if w.1 = k then some w else none := by
  unfold lastKpiWrite
  rw [List.foldl_cons]
  exact lastKpiWrite_foldl_init k ws (if w.1 = k then some w else none)

theorem lastKpiWrite_append (ws : List (Int × JsNumber × JsNumber × JsNumber))
    (w : Int × JsNumber × JsNumber × JsNumber) (k : Int) :
    lastKpiWrite (ws ++ [w]) k = if w.1 = k then some w else lastKpiWrite ws k := by
  unfold lastKpiWrite
  rw [List.foldl_append]
  rfl

theorem applyLastKpi_cons_step (w : Int × JsNumber × JsNumber × JsNumber)
    (ws : List (Int × JsNumber × JsNumber × JsNumber)) (r : KpiRecord) :
    applyLastKpi ws (if r.week_date = w.1 then setKpiVals r w else r) =
      applyLastKpi (w :: ws) r := by
  have hkey : (if r.week_date = w.1 then setKpiVals r w else r).week_date = r.week_date := by
    split <;> rfl
  unfold applyLastKpi
  rw [hkey, lastKpiWrite_cons]
  cases hlast : lastKpiWrite ws r.week_date with
  | some w2 =>
    by_cases hc : r.week_date = w.1
    · rw [if_pos hc]
      try rfl
    · rw [if_neg hc]
      try rfl
  | none =>
    by_cases hc : r.week_date = w.1
    · rw [if_pos hc, if_pos hc.symm]
      try rfl
    · rw [if_neg hc, if_neg (fun h => hc h.symm)]
      try rfl

theorem applyKpiWrites_update_only (now : Nat) :
    ∀ (ws : List (Int × JsNumber × JsNumber × JsNumber)) (st : Store),
      (∀ w ∈ ws, st.kpis.any (fun r => r.week_date = w.1) = true) →
      applyKpiWrites ws now st = { st with kpis := st.kpis.map (applyLastKpi ws) } := by
  intro ws
  induction ws with
  | nil =>
    intro st h
    show st = _
    rw [show st.kpis.map (applyLastKpi []) = st.kpis.map (fun r => r) from rfl]
    rw [List.map_id']
  | cons w ws2 ih =>
    intro st h
    have hw : st.kpis.any (fun r => r.week_date = w.1) = true :=
      h w (List.mem_cons_self w ws2)
    have hup : upsertKpi w.1 w.2.1 w.2.2.1 w.2.2.2 now st =
        { st with kpis := st.kpis.map (fun r =>
            if r.week_date = w.1 then setKpiVals r w else r) } := by
      unfold upsertKpi
      rw [if_pos hw]
      rfl
    rw [applyKpiWrites_cons, hup]
    have hpres2 : ∀ w2 ∈ ws2, ({ st with kpis := st.kpis.map (fun r =>
        if r.week_date = w.1 then setKpiVals r w else r) } : Store).kpis.any
        (fun r => r.week_date = w2.1) = true := by
      intro w2 hw2
      have h2 := h w2 (List.mem_cons_of_mem _ hw2)
      simp only [List.any_eq_true] at h2 ⊢
      obtain ⟨r, hr, hk⟩ := h2
      refine ⟨if r.week_date = w.1 then setKpiVals r w else r,
        List.mem_map_of_mem _ hr, ?_⟩
      split <;> exact hk
    rw [ih _ hpres2]
    show ({ st with kpis := (st.kpis.map (fun r =>
        if r.week_date = w.1 then setKpiVals r w else r)).map (applyLastKpi ws2) } : Store) =
      { st with kpis := st.kpis.map (applyLastKpi (w :: ws2)) }
    rw [List.map_map]
    have hpt : st.kpis.map ((applyLastKpi ws2) ∘ (fun r =>
        if r.week_date = w.1 then setKpiVals r w else r)) =
        st.kpis.map (applyLastKpi (w :: ws2)) := by
      apply List.map_congr_left
      intro r hr
      exact applyLastKpi_cons_step w ws2 r
    rw [hpt]

theorem applyKpiWrites_last_vals (now : Nat) :
    ∀ (ws : List (Int × JsNumber × JsNumber × JsNumber)) (st0 : Store) (r : KpiRecord),
      r ∈ (applyKpiWrites ws now st0).kpis → applyLastKpi ws r = r := by
  intro ws
  induction ws using List.reverseRecOn with
  | nil =>
    intro st0 r hr
    rfl
  | append_singleton ws2 w ih =>
    intro st0 r hr
    rw [applyKpiWrites_append_single] at hr
    by_cases hany : (applyKpiWrites ws2 now st0).kpis.any
        (fun r => r.week_date = w.1) = true
    · have hkpis : (upsertKpi w.1 w.2.1 w.2.2.1 w.2.2.2 now
          (applyKpiWrites ws2 now st0)).kpis =
          (applyKpiWrites ws2 now st0).kpis.map
            (fun r0 => if r0.week_date = w.1 then setKpiVals r0 w else r0) := by
        unfold upsertKpi
        rw [if_pos hany]
        rfl
      rw [hkpis] at hr
      obtain ⟨r0, hr0, hr0eq⟩ := List.mem_map.mp hr
      by_cases hk0 : r0.week_date = w.1
      · rw [if_pos hk0] at hr0eq
        subst hr0eq
        unfold applyLastKpi
        rw [show (setKpiVals r0 w).week_date = r0.week_date from rfl,
          lastKpiWrite_append, if_pos hk0.symm]
        rfl
      · rw [if_neg hk0] at hr0eq
        subst hr0eq
        unfold applyLastKpi
        rw [lastKpiWrite_append, if_neg (fun h => hk0 h.symm)]
        have hih := ih st0 r0 hr0
        unfold applyLastKpi at hih
        exact hih
    · have hkpis : (upsertKpi w.1 w.2.1 w.2.2.1 w.2.2.2 now
          (applyKpiWrites ws2 now st0)).kpis =
          (applyKpiWrites ws2 now st0).kpis ++
            [⟨(applyKpiWrites ws2 now st0).nextKpiId, w.1, w.2.1, w.2.2.1, w.2.2.2,
              now⟩] := by
        unfold upsertKpi
        rw [if_neg hany]
      rw [hkpis] at hr
      rcases List.mem_append.mp hr with hr2 | hr2
      · have hnk : ¬r.week_date = w.1 := by
          intro hcontra
          apply hany
          simp only [List.any_eq_true]
          exact ⟨r, hr2, by simpa using hcontra⟩
        unfold applyLastKpi
        rw [lastKpiWrite_append, if_neg (fun h => hnk h.symm)]
        have hih := ih st0 r hr2
        unfold applyLastKpi at hih
        exact hih
      · rw [List.mem_singleton] at hr2
        subst hr2
        unfold applyLastKpi
        rw [lastKpiWrite_append, if_pos rfl]
        rfl

theorem applyKpiWrites_staff_eq (now : Nat) :
    ∀ (ws : List (Int × JsNumber × JsNumber × JsNumber)) (st : Store),
      (applyKpiWrites ws now st).staff = st.staff ∧
        (applyKpiWrites ws now st).nextStaffId = st.nextStaffId := by
  intro ws
  induction ws with
  | nil => intro st; exact ⟨rfl, rfl⟩
  | cons w ws2 ih =>
    intro st
    rw [applyKpiWrites_cons]
    refine ⟨?_, ?_⟩
    · rw [(ih _).1, upsertKpi_staff_eq]
    · rw [(ih _).2, upsertKpi_nextStaffId_eq]

theorem applyKpiWrites_idempotent (now1 now2 : Nat)
    (ws : List (Int × JsNumber × JsNumber × JsNumber)) (st0 : Store) :
    applyKpiWrites ws now2 (applyKpiWrites ws now1 st0) = applyKpiWrites ws now1 st0 := by
  have hpres : ∀ w ∈ ws,
      (applyKpiWrites ws now1 st0).kpis.any (fun r => r.week_date = w.1) = true :=
    fun w hw => applyKpiWrites_key_present now1 ws st0 w hw
  rw [applyKpiWrites_update_only now2 ws _ hpres]
  have hmap : (applyKpiWrites ws now1 st0).kpis.map (applyLastKpi ws) =
      (applyKpiWrites ws now1 st0).kpis := by
    rw [show (applyKpiWrites ws now1 st0).kpis =
      (applyKpiWrites ws now1 st0).kpis.map (fun r => r) from (List.map_id' _).symm]
    rw [List.map_map]
    apply List.map_congr_left
    intro r hr
    show applyLastKpi ws r = r
    exact applyKpiWrites_last_vals now1 ws st0 r (by simpa using hr)
  rw [hmap]

/-- The typed write a valid staff row produces. -/
def staffWriteOf (row : String) : Option (String × String × String × StaffStatus) :=
  (staffValidateRow ((jsSplit ',' row).map jsTrim)).toOption

/-- Fold a list of staff writes over the store, one upsert per write. -/
def applyStaffWrites (ws : List (String × String × String × StaffStatus)) (now : Nat)
    (st : Store) : Store :=
  ws.foldl (fun s w => upsertStaff w.1 w.2.1 w.2.2.1 w.2.2.2 now s) st

/-- The last write of the list targeting natural key (`n`, `d`). -/
def lastStaffWrite (ws : List (String × String × String × StaffStatus)) (n d : String) :
    Option (String × String × String × StaffStatus) :=
  ws.foldl (fun acc w => if w.1 = n ∧ w.2.2.1 = d then some w else acc) none

/-- Overwrite the non-key columns of a staff record with a write\x27s values. -/
def setStaffVals (r : StaffRecord) (w : String × String × String × StaffStatus)
    (now : Nat) : StaffRecord :=
  { r with position := w.2.1, status := w.2.2.2, updated_at := now }

/-- Apply to a record the last write of the list that targets its key. -/
def applyLastStaff (ws : List (String × String × String × StaffStatus)) (now : Nat)
    (r : StaffRecord) : StaffRecord :=
  match lastStaffWrite ws r.name r.department with
  | some w => setStaffVals r w now
  | none => r

/-- Structural well-formedness of the staff table: at most one record per
natural key, primary ids pairwise distinct and below the serial counter. -/
def staffWF (st : Store) : Prop :=
  staffKeysUnique st ∧ st.staff.Pairwise (fun a b => a.id ≠ b.id) ∧
    ∀ r ∈ st.staff, r.id < st.nextStaffId

theorem staffWriteOf_some (row : String) (w : String × String × String × StaffStatus)
    (h : staffWriteOf row = some w) :
    staffValidateRow ((jsSplit ',' row).map jsTrim) = .ok w := by
  unfold staffWriteOf at h
  cases hv : staffValidateRow ((jsSplit ',' row).map jsTrim) with
  | error e =>
    rw [hv] at h
    simp [Except.toOption] at h
  | ok a =>
    rw [hv] at h
    simp [Except.toOption] at h
    rw [h]

theorem mem_pairwise_eq_of_not {α : Type} (R : α → α → Prop)
    (hsym : ∀ a b, R a b → R b a) (l : List α) (hp : l.Pairwise R) (a b : α)
    (ha : a ∈ l) (hb : b ∈ l) (hnr : ¬R a b) : a = b := by
  by_cases h : a = b
  · exact h
  · exact absurd (hp.forall (fun x y hxy => hsym x y hxy) ha hb h) hnr

theorem upsertStaff_update_eq (n p dept : String) (sv : StaffStatus) (now : Nat)
    (st : Store) (hwf : staffWF st) (dup : StaffRecord)
    (hdup : (st.staff.filter (fun r => r.name = n)).find?
      (fun r => r.department = dept) = some dup) :
    upsertStaff n p dept sv now st =
      { st with staff := st.staff.map (fun r =>
          if r.name = n ∧ r.department = dept then
            { r with position := p, status := sv, updated_at := now }
          else r) } := by
  have hdmem0 := List.mem_of_find?_eq_some hdup
  have hdmem : dup ∈ st.staff := (List.mem_filter.mp hdmem0).1
  have hdname : dup.name = n := by
    have := (List.mem_filter.mp hdmem0).2
    simpa using this
  have hddept : dup.department = dept := by
    have := List.find?_some hdup
    simpa using this
  have hkeys : st.staff.Pairwise
      (fun a b => ¬(a.name = b.name ∧ a.department = b.department)) := hwf.1
  have hids : st.staff.Pairwise (fun a b => a.id ≠ b.id) := hwf.2.1
  unfold upsertStaff
  rw [hdup]
  have hmap : st.staff.map (fun r =>
      if r.id = dup.id then { r with position := p, status := sv, updated_at := now }
      else r) = st.staff.map (fun r =>
      if r.name = n ∧ r.department = dept then
        { r with position := p, status := sv, updated_at := now }
      else r) := by
    apply List.map_congr_left
    intro r hr
    by_cases hid : r.id = dup.id
    · have hreq : r = dup := by
        apply mem_pairwise_eq_of_not (fun a b => a.id ≠ b.id)
          (fun a b hab => fun h => hab h.symm) st.staff hids r dup hr hdmem
        intro hne
        exact hne hid
      rw [if_pos hid, if_pos (by rw [hreq]; exact ⟨hdname, hddept⟩)]
    · have hkey : ¬(r.name = n ∧ r.department = dept) := by
        intro hk
        have hreq : r = dup := by
          apply mem_pairwise_eq_of_not
            (fun a b => ¬(a.name = b.name ∧ a.department = b.department))
            (fun a b hab => fun h => hab ⟨h.1.symm, h.2.symm⟩) st.staff hkeys r dup hr hdmem
          intro hne
          exact hne ⟨hk.1.trans hdname.symm, hk.2.trans hddept.symm⟩
        exact hid (by rw [hreq])
      rw [if_neg hid, if_neg hkey]
  show ({ st with staff := st.staff.map (fun r =>
      if r.id = dup.id then { r with position := p, status := sv, updated_at := now }
      else r) } : Store) = _
  rw [hmap]

theorem upsertStaff_wf (n p dept : String) (sv : StaffStatus) (now : Nat) (st : Store)
    (hwf : staffWF st) : staffWF (upsertStaff n p dept sv now st) := by
  obtain ⟨hkeys, hids, hbound⟩ := hwf
  refine ⟨upsertStaff_keys_unique n p dept sv now st hkeys, ?_, ?_⟩
  · unfold upsertStaff
    split
    next dup hdup =>
      show (st.staff.map _).Pairwise _
      rw [List.pairwise_map]
      refine hids.imp ?_
      intro a b hab
      have keyi : ∀ r : StaffRecord, ((if r.id = dup.id then
          { r with position := p, status := sv, updated_at := now }
        else r) : StaffRecord).id = r.id := by
        intro r
        split <;> rfl
      simpa only [keyi] using hab
    next hdup =>
      show (st.staff ++ [(⟨st.nextStaffId, n, p, dept, sv, now, now⟩ : StaffRecord)]).Pairwise _
      rw [List.pairwise_append]
      refine ⟨hids, List.pairwise_singleton _ _, ?_⟩
      intro a ha b hb
      rw [List.mem_singleton] at hb
      subst hb
      exact Nat.ne_of_lt (hbound a ha)
  · unfold upsertStaff
    split
    next dup hdup =>
      intro r hr
      obtain ⟨r0, hr0, hr0eq⟩ := List.mem_map.mp hr
      have : r.id = r0.id := by
        rw [← hr0eq]
        split <;> rfl
      rw [this]
      exact hbound r0 hr0
    next hdup =>
      intro r hr
      rcases List.mem_append.mp hr with h | h
      · exact Nat.lt_succ_of_lt (hbound r h)
      · rw [List.mem_singleton] at h
        subst h
        exact Nat.lt_succ_self _

theorem upsertStaff_key_stays (n p dept : String) (sv : StaffStatus) (now : Nat)
    (st : Store) (n2 d2 : String)
    (h : ∃ r ∈ st.staff, r.name = n2 ∧ r.department = d2) :
    ∃ r ∈ (upsertStaff n p dept sv now st).staff, r.name = n2 ∧ r.department = d2 := by
  obtain ⟨r, hr, hk⟩ := h
  unfold upsertStaff
  split
  next dup hdup =>
    refine ⟨if r.id = dup.id then { r with position := p, status := sv, updated_at := now }
      else r, List.mem_map_of_mem _ hr, ?_⟩
    split <;> exact hk
  next hdup => exact ⟨r, List.mem_append_left _ hr, hk⟩

theorem upsertStaff_own_key (n p dept : String) (sv : StaffStatus) (now : Nat)
    (st : Store) :
    ∃ r ∈ (upsertStaff n p dept sv now st).staff, r.name = n ∧ r.department = dept := by
  unfold upsertStaff
  split
  next dup hdup =>
    have hdmem0 := List.mem_of_find?_eq_some hdup
    have hdmem : dup ∈ st.staff := (List.mem_filter.mp hdmem0).1
    have hdname : dup.name = n := by
      have := (List.mem_filter.mp hdmem0).2
      simpa using this
    have hddept : dup.department = dept := by
      have := List.find?_some hdup
      simpa using this
    refine ⟨if dup.id = dup.id then
        { dup with position := p, status := sv, updated_at := now }
      else dup, List.mem_map_of_mem _ hdmem, ?_⟩
    rw [if_pos rfl]
    exact ⟨hdname, hddept⟩
  next =>
    exact ⟨⟨st.nextStaffId, n, p, dept, sv, now, now⟩,
      List.mem_append_right _ (List.mem_singleton_self _), rfl, rfl⟩

theorem applyStaffWrites_cons (w : String × String × String × StaffStatus)
    (ws : List (String × String × String × StaffStatus)) (now : Nat) (st : Store) :
    applyStaffWrites (w :: ws) now st =
      applyStaffWrites ws now (upsertStaff w.1 w.2.1 w.2.2.1 w.2.2.2 now st) := rfl

theorem applyStaffWrites_append_single
    (ws : List (String × String × String × StaffStatus))
    (w : String × String × String × StaffStatus) (now : Nat) (st : Store) :
    applyStaffWrites (ws ++ [w]) now st =
      upsertStaff w.1 w.2.1 w.2.2.1 w.2.2.2 now (applyStaffWrites ws now st) := by
  unfold applyStaffWrites
  rw [List.foldl_append]
  rfl

theorem applyStaffWrites_wf (now : Nat) :
    ∀ (ws : List (String × String × String × StaffStatus)) (st : Store),
      staffWF st → staffWF (applyStaffWrites ws now st) := by
  intro ws
  induction ws with
  | nil => intro st h; exact h
  | cons w ws2 ih =>
    intro st h
    rw [applyStaffWrites_cons]
    exact ih _ (upsertStaff_wf w.1 w.2.1 w.2.2.1 w.2.2.2 now st h)

theorem applyStaffWrites_keeps_key (now : Nat) (n2 d2 : String) :
    ∀ (ws : List (String × String × String × StaffStatus)) (st : Store),
      (∃ r ∈ st.staff, r.name = n2 ∧ r.department = d2) →
      ∃ r ∈ (applyStaffWrites ws now st).staff, r.name = n2 ∧ r.department = d2 := by
  intro ws
  induction ws with
  | nil => intro st h; exact h
  | cons w ws2 ih =>
    intro st h
    rw [applyStaffWrites_cons]
    exact ih _ (upsertStaff_key_stays w.1 w.2.1 w.2.2.1 w.2.2.2 now st n2 d2 h)

theorem applyStaffWrites_key_present (now : Nat) :
    ∀ (ws : List (String × String × String × StaffStatus)) (st : Store)
      (w : String × String × String × StaffStatus), w ∈ ws →
      ∃ r ∈ (applyStaffWrites ws now st).staff, r.name = w.1 ∧ r.department = w.2.2.1 := by
  intro ws
  induction ws with
  | nil =>
    intro st w hw
    simp at hw
  | cons w2 ws2 ih =>
    intro st w hw
    rcases List.mem_cons.mp hw with h | h
    · subst h
      rw [applyStaffWrites_cons]
      exact applyStaffWrites_keeps_key now w.1 w.2.2.1 ws2 _
        (upsertStaff_own_key w.1 w.2.1 w.2.2.1 w.2.2.2 now st)
    · rw [applyStaffWrites_cons]
      exact ih _ w h

theorem applyStaffWrites_kpis_eq (now : Nat) :
    ∀ (ws : List (String × String × String × StaffStatus)) (st : Store),
      (applyStaffWrites ws now st).kpis = st.kpis ∧
        (applyStaffWrites ws now st).nextKpiId = st.nextKpiId := by
  intro ws
  induction ws with
  | nil => intro st; exact ⟨rfl, rfl⟩
  | cons w ws2 ih =>
    intro st
    rw [applyStaffWrites_cons]
    refine ⟨?_, ?_⟩
    · rw [(ih _).1, upsertStaff_kpis_eq]
    · rw [(ih _).2, upsertStaff_nextKpiId_eq]

theorem lastStaffWrite_foldl_init (n d : String) :
    ∀ (ws : List (String × String × String × StaffStatus))
      (a : Option (String × String × String × StaffStatus)),
      ws.foldl (fun acc w => if w.1 = n ∧ w.2.2.1 = d then some w else acc) a =
        match lastStaffWrite ws n d with
        | some w2 => some w2
        | none => a := by
  intro ws
  induction ws with
  | nil => intro a; rfl
  | cons w2 ws2 ih =>
    intro a
    rw [List.foldl_cons, ih (if w2.1 = n ∧ w2.2.2.1 = d then some w2 else a)]
    have hL : lastStaffWrite (w2 :: ws2) n d =
        match lastStaffWrite ws2 n d with
        | some w3 => some w3
        | none => if w2.1 = n ∧ w2.2.2.1 = d then some w2 else none := by
      unfold lastStaffWrite
      rw [List.foldl_cons, ih (if w2.1 = n ∧ w2.2.2.1 = d then some w2 else none)]
      rfl
    rw [hL]
    cases lastStaffWrite ws2 n d with
    | some w3 => rfl
    | none => by_cases hwk : w2.1 = n ∧ w2.2.2.1 = d <;> simp [hwk]

theorem lastStaffWrite_cons (w : String × String × String × StaffStatus)
    (ws : List (String × String × String × StaffStatus)) (n d : String) :
    lastStaffWrite (w :: ws) n d =
      match lastStaffWrite ws n d with
      | some w2 => some w2
      | none => if w.1 = n ∧ w.2.2.1 = d then some w else none := by
  unfold lastStaffWrite
  rw [List.foldl_cons]
  exact lastStaffWrite_foldl_init n d ws (if w.1 = n ∧ w.2.2.1 = d then some w else none)

theorem lastStaffWrite_append (ws : List (String × String × String × StaffStatus))
    (w : String × String × String × StaffStatus) (n d : String) :
    lastStaffWrite (ws ++ [w]) n d =
      if w.1 = n ∧ w.2.2.1 = d then some w else lastStaffWrite ws n d := by
  unfold lastStaffWrite
  rw [List.foldl_append]
  rfl

theorem applyLastStaff_cons_step (w : String × String × String × StaffStatus)
    (ws : List (String × String × String × StaffStatus)) (now : Nat) (r : StaffRecord) :
    applyLastStaff ws now (if r.name = w.1 ∧ r.department = w.2.2.1 then
        { r with position := w.2.1, status := w.2.2.2, updated_at := now }
      else r) = applyLastStaff (w :: ws) now r := by
  have hkeyn : ((if r.name = w.1 ∧ r.department = w.2.2.1 then
      { r with position := w.2.1, status := w.2.2.2, updated_at := now }
    else r) : StaffRecord).name = r.name := by
    split <;> rfl
  have hkeyd : ((if r.name = w.1 ∧ r.department = w.2.2.1 then
      { r with position := w.2.1, status := w.2.2.2, updated_at := now }
    else r) : StaffRecord).department = r.department := by
    split <;> rfl
  unfold applyLastStaff
  rw [hkeyn, hkeyd, lastStaffWrite_cons]
  cases hlast : lastStaffWrite ws r.name r.department with
  | some w2 =>
    by_cases hc : r.name = w.1 ∧ r.department = w.2.2.1
    · rw [if_pos hc]
      try rfl
    · rw [if_neg hc]
      try rfl
  | none =>
    by_cases hc : r.name = w.1 ∧ r.department = w.2.2.1
    · rw [if_pos hc, if_pos ⟨hc.1.symm, hc.2.symm⟩]
      try rfl
    · rw [if_neg hc, if_neg (fun h => hc ⟨h.1.symm, h.2.symm⟩)]
      try rfl

theorem applyStaffWrites_update_only (now : Nat) :
    ∀ (ws : List (String × String × String × StaffStatus)) (st : Store),
      staffWF st →
      (∀ w ∈ ws, ∃ r ∈ st.staff, r.name = w.1 ∧ r.department = w.2.2.1) →
      applyStaffWrites ws now st =
        { st with staff := st.staff.map (applyLastStaff ws now) } := by
  intro ws
  induction ws with
  | nil =>
    intro st hwf h
    show st = _
    rw [show st.staff.map (applyLastStaff [] now) = st.staff.map (fun r => r) from rfl]
    rw [List.map_id']
  | cons w ws2 ih =>
    intro st hwf h
    have hw := h w (List.mem_cons_self w ws2)
    have hsome : ((st.staff.filter (fun r => r.name = w.1)).find?
        (fun r => r.department = w.2.2.1)).isSome := by
      rw [List.find?_isSome]
      obtain ⟨r, hr, hk1, hk2⟩ := hw
      exact ⟨r, List.mem_filter.mpr ⟨hr, by simpa using hk1⟩, by simpa using hk2⟩
    obtain ⟨dup, hdup⟩ := Option.isSome_iff_exists.mp hsome
    have hup := upsertStaff_update_eq w.1 w.2.1 w.2.2.1 w.2.2.2 now st hwf dup hdup
    rw [applyStaffWrites_cons, hup]
    have hwf2 : staffWF ({ st with staff := st.staff.map (fun r =>
        if r.name = w.1 ∧ r.department = w.2.2.1 then
          { r with position := w.2.1, status := w.2.2.2, updated_at := now }
        else r) } : Store) := by
      rw [← hup]
      exact upsertStaff_wf w.1 w.2.1 w.2.2.1 w.2.2.2 now st hwf
    have hpres2 : ∀ w2 ∈ ws2, ∃ r ∈ ({ st with staff := st.staff.map (fun r =>
        if r.name = w.1 ∧ r.department = w.2.2.1 then
          { r with position := w.2.1, status := w.2.2.2, updated_at := now }
        else r) } : Store).staff, r.name = w2.1 ∧ r.department = w2.2.2.1 := by
      intro w2 hw2
      obtain ⟨r, hr, hk⟩ := h w2 (List.mem_cons_of_mem _ hw2)
      refine ⟨if r.name = w.1 ∧ r.department = w.2.2.1 then
          { r with position := w.2.1, status := w.2.2.2, updated_at := now }
        else r, List.mem_map_of_mem _ hr, ?_⟩
      split <;> exact hk
    rw [ih _ hwf2 hpres2]
    show ({ st with staff := (st.staff.map (fun r =>
        if r.name = w.1 ∧ r.department = w.2.2.1 then
          { r with position := w.2.1, status := w.2.2.2, updated_at := now }
        else r)).map (applyLastStaff ws2 now) } : Store) =
      { st with staff := st.staff.map (applyLastStaff (w :: ws2) now) }
    rw [List.map_map]
    have hpt : st.staff.map ((applyLastStaff ws2 now) ∘ (fun r =>
        if r.name = w.1 ∧ r.department = w.2.2.1 then
          { r with position := w.2.1, status := w.2.2.2, updated_at := now }
        else r)) = st.staff.map (applyLastStaff (w :: ws2) now) := by
      apply List.map_congr_left
      intro r hr
      exact applyLastStaff_cons_step w ws2 now r
    rw [hpt]

theorem applyStaffWrites_strip_last (now1 : Nat) :
    ∀ (ws : List (String × String × String × StaffStatus)) (st0 : Store),
      staffWF st0 → ∀ r ∈ (applyStaffWrites ws now1 st0).staff, ∀ now2 : Nat,
      stripUpdatedAt (applyLastStaff ws now2 r) = stripUpdatedAt r := by
  intro ws
  induction ws using List.reverseRecOn with
  | nil =>
    intro st0 hwf r hr now2
    rfl
  | append_singleton ws2 w ih =>
    intro st0 hwf r hr now2
    rw [applyStaffWrites_append_single] at hr
    have hwf2 : staffWF (applyStaffWrites ws2 now1 st0) := applyStaffWrites_wf now1 ws2 st0 hwf
    cases hfind : ((applyStaffWrites ws2 now1 st0).staff.filter
        (fun r => r.name = w.1)).find? (fun r => r.department = w.2.2.1) with
    | some dup =>
      have hup := upsertStaff_update_eq w.1 w.2.1 w.2.2.1 w.2.2.2 now1
        (applyStaffWrites ws2 now1 st0) hwf2 dup hfind
      rw [hup] at hr
      have hr2 : r ∈ (applyStaffWrites ws2 now1 st0).staff.map (fun r0 =>
          if r0.name = w.1 ∧ r0.department = w.2.2.1 then
            { r0 with position := w.2.1, status := w.2.2.2, updated_at := now1 }
          else r0) := hr
      obtain ⟨r0, hr0, hr0eq⟩ := List.mem_map.mp hr2
      by_cases hk0 : r0.name = w.1 ∧ r0.department = w.2.2.1
      · rw [if_pos hk0] at hr0eq
        subst hr0eq
        unfold applyLastStaff
        rw [show ({ r0 with
            position := w.2.1
            status := w.2.2.2
            updated_at := now1 } : StaffRecord).name = r0.name from rfl]
        rw [show ({ r0 with
            position := w.2.1
            status := w.2.2.2
            updated_at := now1 } : StaffRecord).department = r0.department from rfl]
        rw [lastStaffWrite_append, if_pos ⟨hk0.1.symm, hk0.2.symm⟩]
        rfl
      · rw [if_neg hk0] at hr0eq
        subst hr0eq
        unfold applyLastStaff
        rw [lastStaffWrite_append, if_neg (fun h => hk0 ⟨h.1.symm, h.2.symm⟩)]
        have hih := ih st0 hwf r0 hr0 now2
        unfold applyLastStaff at hih
        exact hih
    | none =>
      have hstaff : (upsertStaff w.1 w.2.1 w.2.2.1 w.2.2.2 now1
          (applyStaffWrites ws2 now1 st0)).staff =
          (applyStaffWrites ws2 now1 st0).staff ++
            [⟨(applyStaffWrites ws2 now1 st0).nextStaffId, w.1, w.2.1, w.2.2.1, w.2.2.2,
              now1, now1⟩] := by
        unfold upsertStaff
        rw [hfind]
      rw [hstaff] at hr
      rcases List.mem_append.mp hr with hr2 | hr2
      · have hnk : ¬(r.name = w.1 ∧ r.department = w.2.2.1) := by
          intro hk
          have : r ∈ (applyStaffWrites ws2 now1 st0).staff.filter
              (fun r => r.name = w.1) :=
            List.mem_filter.mpr ⟨hr2, by simpa using hk.1⟩
          have := List.find?_eq_none.mp hfind r this
          simp at this
          exact this hk.2
        unfold applyLastStaff
        rw [lastStaffWrite_append, if_neg (fun h => hnk ⟨h.1.symm, h.2.symm⟩)]
        have hih := ih st0 hwf r hr2 now2
        unfold applyLastStaff at hih
        exact hih
      · rw [List.mem_singleton] at hr2
        subst hr2
        unfold applyLastStaff
        rw [lastStaffWrite_append, if_pos ⟨rfl, rfl⟩]
        rfl

theorem applyStaffWrites_idem_strip (now1 now2 : Nat)
    (ws : List (String × String × String × StaffStatus)) (st0 : Store)
    (hwf : staffWF st0) :
    (applyStaffWrites ws now2 (applyStaffWrites ws now1 st0)).staff.map stripUpdatedAt =
        (applyStaffWrites ws now1 st0).staff.map stripUpdatedAt ∧
      (applyStaffWrites ws now2 (applyStaffWrites ws now1 st0)).kpis =
        (applyStaffWrites ws now1 st0).kpis ∧
      (applyStaffWrites ws now2 (applyStaffWrites ws now1 st0)).nextKpiId =
        (applyStaffWrites ws now1 st0).nextKpiId ∧
      (applyStaffWrites ws now2 (applyStaffWrites ws now1 st0)).nextStaffId =
        (applyStaffWrites ws now1 st0).nextStaffId := by
  have hwf1 : staffWF (applyStaffWrites ws now1 st0) := applyStaffWrites_wf now1 ws st0 hwf
  have hpres : ∀ w ∈ ws, ∃ r ∈ (applyStaffWrites ws now1 st0).staff,
      r.name = w.1 ∧ r.department = w.2.2.1 :=
    fun w hw => applyStaffWrites_key_present now1 ws st0 w hw
  rw [applyStaffWrites_update_only now2 ws _ hwf1 hpres]
  refine ⟨?_, rfl, rfl, rfl⟩
  show ((applyStaffWrites ws now1 st0).staff.map (applyLastStaff ws now2)).map
    stripUpdatedAt = _
  rw [List.map_map]
  apply List.map_congr_left
  intro r hr
  exact applyStaffWrites_strip_last now1 ws st0 hwf r hr now2

theorem runRows_staff_all_valid (now : Nat) :
    ∀ (rows : List String) (i : Nat) (st : Store),
      (∀ row ∈ rows, (staffWriteOf row).isSome) →
      (runRows (processStaffRow now) i rows st []).2.1 =
          applyStaffWrites (rows.filterMap staffWriteOf) now st ∧
        (runRows (processStaffRow now) i rows st []).2.2 = [] ∧
        ∀ io ∈ (runRows (processStaffRow now) i rows st []).1, io.2 = none := by
  intro rows
  induction rows with
  | nil =>
    intro i st hval
    refine ⟨rfl, rfl, ?_⟩
    intro io h
    simp [runRows] at h
  | cons row rest ih =>
    intro i st hval
    obtain ⟨w, hw⟩ := Option.isSome_iff_exists.mp (hval row (List.mem_cons_self row rest))
    have hstep : processStaffRow now row st [] =
        (none, upsertStaff w.1 w.2.1 w.2.2.1 w.2.2.2 now st, []) :=
      processStaffRow_valid now row st w.1 w.2.1 w.2.2.1 w.2.2.2 (staffWriteOf_some row w hw)
    have hrest := ih (i + 1) (upsertStaff w.1 w.2.1 w.2.2.1 w.2.2.2 now st)
      (fun r hr => hval r (List.mem_cons_of_mem row hr))
    rw [runRows, hstep]
    refine ⟨?_, hrest.2.1, ?_⟩
    · have hfm : List.filterMap staffWriteOf (row :: rest) =
          w :: rest.filterMap staffWriteOf := by
        simp [List.filterMap_cons, hw]
      rw [hfm]
      exact hrest.1
    · intro io hio
      rcases List.mem_cons.mp hio with h | h
      · rw [h]
      · exact hrest.2.2 io h

theorem runRows_staff_no_errors_valid (now : Nat) :
    ∀ (rows : List String) (i : Nat) (st : Store),
      (∀ io ∈ (runRows (processStaffRow now) i rows st []).1, io.2 = none) →
      ∀ row ∈ rows, (staffWriteOf row).isSome := by
  intro rows
  induction rows with
  | nil =>
    intro i st h row hrow
    simp at hrow
  | cons row rest ih =>
    intro i st h r hr
    have hfst : (processStaffRow now row st []).1 = none := by
      have := h (i, (processStaffRow now row st []).1)
        (by rw [runRows]; exact List.mem_cons_self _ _)
      exact this
    cases hv : staffValidateRow ((jsSplit ',' row).map jsTrim) with
    | error e =>
      exfalso
      have : (processStaffRow now row st []).1 = some e := by
        unfold processStaffRow
        rw [hv]
      rw [this] at hfst
      exact Option.noConfusion hfst
    | ok w =>
      have hstep : processStaffRow now row st [] =
          (none, upsertStaff w.1 w.2.1 w.2.2.1 w.2.2.2 now st, []) :=
        processStaffRow_valid now row st w.1 w.2.1 w.2.2.1 w.2.2.2 hv
      rcases List.mem_cons.mp hr with h2 | h2
      · subst h2
        unfold staffWriteOf
        rw [hv]
        rfl
      · refine ih (i + 1) (upsertStaff w.1 w.2.1 w.2.2.1 w.2.2.2 now st) ?_ r h2
        intro io hio
        apply h
        rw [runRows, hstep]
        exact List.mem_cons_of_mem _ hio

theorem countP_isNone_all (outs : List (Nat × Option RowError))
    (h : ∀ io ∈ outs, io.2 = none) :
    outs.countP (fun io => io.2.isNone) = outs.length := by
  induction outs with
  | nil => rfl
  | cons io rest ih =>
    rw [List.countP_cons]
    rw [show io.2.isNone = true from by rw [h io (List.mem_cons_self _ _)]; rfl]
    rw [ih (fun io2 h2 => h io2 (List.mem_cons_of_mem _ h2))]
    simp

/-- A well-formed two-row KPI upload. -/
def twoRowKpiCsv : String :=
  "week_date,efficiency,production_rate,defects_ppm\n2024-01-01,85.5,150.75,25.5\n2024-01-08,90.2,175.25,18.3"

/-- A well-formed one-row staff upload. -/
def singleStaffCsv : String := "name,position,department,status\nJohn Doe,Engineer,Production,active"

/-- Claim C1 (amended): re-running `uploadCsv` on the same kind and text,
when the first run reported no errors and the staff table satisfies its
structural invariants (unique natural keys, unique ids below the serial
counter), reports the same `recordsProcessed`, zero errors and success,
and leaves the store unchanged up to the refreshed `updated_at` of
re-written staff records; for the kpi kind the store is exactly
unchanged — records are updated in place, never duplicated. -/
theorem uploadCsv_reingest_idempotent (t d : String) (now1 now2 : Nat)
    (pd : String → Option Int) (pf : String → Option JsNumber) (st0 : Store)
    (hwf : staffWF st0)
    (h1 : (uploadCsv t d now1 pd pf st0 []).1.errors = []) :
    (uploadCsv t d now2 pd pf (uploadCsv t d now1 pd pf st0 []).2.1
        []).1.recordsProcessed = (uploadCsv t d now1 pd pf st0 []).1.recordsProcessed ∧
    (uploadCsv t d now2 pd pf (uploadCsv t d now1 pd pf st0 []).2.1 []).1.errors = [] ∧
    (uploadCsv t d now2 pd pf (uploadCsv t d now1 pd pf st0 []).2.1 []).1.success = true ∧
    (uploadCsv t d now2 pd pf (uploadCsv t d now1 pd pf st0 []).2.1 []).2.1.kpis =
      (uploadCsv t d now1 pd pf st0 []).2.1.kpis ∧
    (uploadCsv t d now2 pd pf (uploadCsv t d now1 pd pf st0 []).2.1 []).2.1.nextKpiId =
      (uploadCsv t d now1 pd pf st0 []).2.1.nextKpiId ∧
    (uploadCsv t d now2 pd pf (uploadCsv t d now1 pd pf st0 []).2.1 []).2.1.nextStaffId =
      (uploadCsv t d now1 pd pf st0 []).2.1.nextStaffId ∧
    (uploadCsv t d now2 pd pf (uploadCsv t d now1 pd pf st0 []).2.1
        []).2.1.staff.map stripUpdatedAt =
      (uploadCsv t d now1 pd pf st0 []).2.1.staff.map stripUpdatedAt ∧
    (t = "kpi" → (uploadCsv t d now2 pd pf (uploadCsv t d now1 pd pf st0 []).2.1
        []).2.1 = (uploadCsv t d now1 pd pf st0 []).2.1) := by
  by_cases hemp : jsTrim d = ""
  · rw [uploadCsv_empty t d now1 pd pf st0 [] hemp] at h1
    simp at h1
  by_cases hrows : dataRowsOf d = []
  · rw [uploadCsv_headers_only t d now1 pd pf st0 [] hemp hrows] at h1
    simp at h1
  have hrows2 : dataRowsOf d ≠ [] := hrows
  by_cases hk : t = "kpi"
  · subst hk
    cases hv : validateHeaders (headerCellsOf d) kpiHeaders with
    | some m =>
      rw [uploadCsv_header_err "kpi" d now1 pd pf st0 [] m (Or.inl rfl) hemp hrows2 hv]
        at h1
      simp at h1
    | none =>
      have hrun1 := uploadCsv_kpi_rows d now1 pd pf st0 [] hemp hrows2 hv
      have herr1 : renderOutcomes
          (runRows (processKpiRow pd pf now1) 2 (dataRowsOf d) st0 []).1 = [] := by
        rw [hrun1] at h1
        exact h1
      have hall1 := (renderOutcomes_eq_nil_iff _).mp herr1
      have hvalid := runRows_kpi_no_errors_valid pd pf now1 (dataRowsOf d) 2 st0 hall1
      have hR1 := runRows_kpi_all_valid pd pf now1 (dataRowsOf d) 2 st0 hvalid
      have hst1 : (uploadCsv "kpi" d now1 pd pf st0 []).2.1 =
          applyKpiWrites ((dataRowsOf d).filterMap (kpiWriteOf pd pf)) now1 st0 := by
        rw [hrun1]
        exact hR1.1
      have hrun2 := uploadCsv_kpi_rows d now2 pd pf
        (applyKpiWrites ((dataRowsOf d).filterMap (kpiWriteOf pd pf)) now1 st0) []
        hemp hrows2 hv
      have hgrun2 : uploadCsv "kpi" d now2 pd pf
          (uploadCsv "kpi" d now1 pd pf st0 []).2.1 [] =
          (aggregate (runRows (processKpiRow pd pf now2) 2 (dataRowsOf d)
            (applyKpiWrites ((dataRowsOf d).filterMap (kpiWriteOf pd pf)) now1 st0) []).1,
          (runRows (processKpiRow pd pf now2) 2 (dataRowsOf d)
            (applyKpiWrites ((dataRowsOf d).filterMap (kpiWriteOf pd pf)) now1 st0)
            []).2) := by
        rw [hst1]
        exact hrun2
      have hR2 := runRows_kpi_all_valid pd pf now2 (dataRowsOf d) 2
        (applyKpiWrites ((dataRowsOf d).filterMap (kpiWriteOf pd pf)) now1 st0) hvalid
      have herr2 : renderOutcomes (runRows (processKpiRow pd pf now2) 2 (dataRowsOf d)
          (applyKpiWrites ((dataRowsOf d).filterMap (kpiWriteOf pd pf)) now1 st0)
          []).1 = [] := (renderOutcomes_eq_nil_iff _).mpr hR2.2.2
      have hidem := applyKpiWrites_idempotent now1 now2
        ((dataRowsOf d).filterMap (kpiWriteOf pd pf)) st0
      have hst2 : (uploadCsv "kpi" d now2 pd pf
          (uploadCsv "kpi" d now1 pd pf st0 []).2.1 []).2.1 =
          applyKpiWrites ((dataRowsOf d).filterMap (kpiWriteOf pd pf)) now1 st0 := by
        rw [hgrun2]
        show (runRows (processKpiRow pd pf now2) 2 (dataRowsOf d)
          (applyKpiWrites ((dataRowsOf d).filterMap (kpiWriteOf pd pf)) now1 st0)
          []).2.1 = _
        rw [hR2.1, hidem]
      have hstore : (uploadCsv "kpi" d now2 pd pf
          (uploadCsv "kpi" d now1 pd pf st0 []).2.1 []).2.1 =
          (uploadCsv "kpi" d now1 pd pf st0 []).2.1 := by
        rw [hst2, hst1]
      refine ⟨?_, ?_, ?_, by rw [hstore], by rw [hstore], by rw [hstore],
        by rw [hstore], fun h => hstore⟩
      · rw [hgrun2, hrun1]
        show (runRows (processKpiRow pd pf now2) 2 (dataRowsOf d)
            (applyKpiWrites ((dataRowsOf d).filterMap (kpiWriteOf pd pf)) now1 st0)
            []).1.countP (fun io => io.2.isNone) =
          (runRows (processKpiRow pd pf now1) 2 (dataRowsOf d) st0 []).1.countP
            (fun io => io.2.isNone)
        rw [countP_isNone_all _ hR2.2.2, countP_isNone_all _ hall1,
          runRows_length, runRows_length]
      · rw [hgrun2]
        exact herr2
      · rw [hgrun2]
        show (renderOutcomes (runRows (processKpiRow pd pf now2) 2 (dataRowsOf d)
          (applyKpiWrites ((dataRowsOf d).filterMap (kpiWriteOf pd pf)) now1 st0)
          []).1).isEmpty = true
        rw [herr2]
        rfl
  by_cases hs : t = "staff"
  · subst hs
    cases hv : validateHeaders (headerCellsOf d) staffHeaders with
    | some m =>
      rw [uploadCsv_header_err "staff" d now1 pd pf st0 [] m (Or.inr rfl) hemp hrows2 hv]
        at h1
      simp at h1
    | none =>
      have hrun1 := uploadCsv_staff_rows d now1 pd pf st0 [] hemp hrows2 hv
      have herr1 : renderOutcomes
          (runRows (processStaffRow now1) 2 (dataRowsOf d) st0 []).1 = [] := by
        rw [hrun1] at h1
        exact h1
      have hall1 := (renderOutcomes_eq_nil_iff _).mp herr1
      have hvalid := runRows_staff_no_errors_valid now1 (dataRowsOf d) 2 st0 hall1
      have hR1 := runRows_staff_all_valid now1 (dataRowsOf d) 2 st0 hvalid
      have hst1 : (uploadCsv "staff" d now1 pd pf st0 []).2.1 =
          applyStaffWrites ((dataRowsOf d).filterMap staffWriteOf) now1 st0 := by
        rw [hrun1]
        exact hR1.1
      have hrun2 := uploadCsv_staff_rows d now2 pd pf
        (applyStaffWrites ((dataRowsOf d).filterMap staffWriteOf) now1 st0) []
        hemp hrows2 hv
      have hgrun2 : uploadCsv "staff" d now2 pd pf
          (uploadCsv "staff" d now1 pd pf st0 []).2.1 [] =
          (aggregate (runRows (processStaffRow now2) 2 (dataRowsOf d)
            (applyStaffWrites ((dataRowsOf d).filterMap staffWriteOf) now1 st0) []).1,
          (runRows (processStaffRow now2) 2 (dataRowsOf d)
            (applyStaffWrites ((dataRowsOf d).filterMap staffWriteOf) now1 st0)
            []).2) := by
        rw [hst1]
        exact hrun2
      have hR2 := runRows_staff_all_valid now2 (dataRowsOf d) 2
        (applyStaffWrites ((dataRowsOf d).filterMap staffWriteOf) now1 st0) hvalid
      have herr2 : renderOutcomes (runRows (processStaffRow now2) 2 (dataRowsOf d)
          (applyStaffWrites ((dataRowsOf d).filterMap staffWriteOf) now1 st0)
          []).1 = [] := (renderOutcomes_eq_nil_iff _).mpr hR2.2.2
      have hidem := applyStaffWrites_idem_strip now1 now2
        ((dataRowsOf d).filterMap staffWriteOf) st0 hwf
      have hst2 : (uploadCsv "staff" d now2 pd pf
          (uploadCsv "staff" d now1 pd pf st0 []).2.1 []).2.1 =
          applyStaffWrites ((dataRowsOf d).filterMap staffWriteOf) now2
            (applyStaffWrites ((dataRowsOf d).filterMap staffWriteOf) now1 st0) := by
        rw [hgrun2]
        exact hR2.1
      refine ⟨?_, ?_, ?_, ?_, ?_, ?_, ?_, fun h => absurd h (by decide)⟩
      · rw [hgrun2, hrun1]
        show (runRows (processStaffRow now2) 2 (dataRowsOf d)
            (applyStaffWrites ((dataRowsOf d).filterMap staffWriteOf) now1 st0)
            []).1.countP (fun io => io.2.isNone) =
          (runRows (processStaffRow now1) 2 (dataRowsOf d) st0 []).1.countP
            (fun io => io.2.isNone)
        rw [countP_isNone_all _ hR2.2.2, countP_isNone_all _ hall1,
          runRows_length, runRows_length]
      · rw [hgrun2]
        exact herr2
      · rw [hgrun2]
        show (renderOutcomes (runRows (processStaffRow now2) 2 (dataRowsOf d)
          (applyStaffWrites ((dataRowsOf d).filterMap staffWriteOf) now1 st0)
          []).1).isEmpty = true
        rw [herr2]
        rfl
      · rw [hst2, hst1]
        exact hidem.2.1
      · rw [hst2, hst1]
        exact hidem.2.2.1
      · rw [hst2, hst1]
        exact hidem.2.2.2
      · rw [hst2, hst1]
        exact hidem.1
  · rw [uploadCsv_invalid_type t d now1 pd pf st0 [] hk hs hemp hrows2] at h1
    simp at h1

/-- Witness for the amended C1: a two-row KPI file re-ingested at a later
time leaves the store exactly unchanged. -/
theorem uploadCsv_reingest_idempotent_witness :
    (uploadCsv "kpi" twoRowKpiCsv 5 demoParseDate demoParseFloat
        (uploadCsv "kpi" twoRowKpiCsv 3 demoParseDate demoParseFloat emptyStore
          []).2.1 []).2.1 =
      (uploadCsv "kpi" twoRowKpiCsv 3 demoParseDate demoParseFloat emptyStore []).2.1 :=
  (uploadCsv_reingest_idempotent "kpi" twoRowKpiCsv 3 5 demoParseDate demoParseFloat
    emptyStore ⟨List.Pairwise.nil, List.Pairwise.nil,
      fun r hr => absurd hr (List.not_mem_nil r)⟩ (by decide)).2.2.2.2.2.2.2 rfl

/-- Counterexample to C1 as stated: for the staff kind a second error-free
run at a later time refreshes `updated_at`, so the store state after the
second run differs from the state after the first. -/
theorem uploadCsv_reingest_counterexample :
    (uploadCsv "staff" singleStaffCsv 0 demoParseDate demoParseFloat emptyStore
        []).1.errors = [] ∧
      (uploadCsv "staff" singleStaffCsv 1 demoParseDate demoParseFloat
        (uploadCsv "staff" singleStaffCsv 0 demoParseDate demoParseFloat emptyStore
          []).2.1 []).2.1 ≠
      (uploadCsv "staff" singleStaffCsv 0 demoParseDate demoParseFloat emptyStore
        []).2.1 := by
  decide

end ProdDash

